import Mathlib

set_option autoImplicit false

/-!
# A verification development for the `sandfs` virtual filesystem

This file gives a shallow embedding, in Lean, of the parts of `sandfs`
(`src/sandfs/{policies,nodes,vfs,adapters,search,shell,shell_parser}.py`)
that the verified properties below talk about, together with theorems
about those definitions.

Embedding conventions:
* Python exceptions are modelled by explicit error values.  A mutating
  facade operation returns the post-call state *and* an optional error,
  because an in-place mutation performed before an exception is raised
  survives the exception in Python.
* Paths are lists of non-empty segments (the `parts` of a normalized
  `PurePosixPath` without the leading `/`).
* A file's optional content provider is modelled by the string the
  provider currently yields (`providers are a pure function of node
  context producing a string on each read`), directories are modelled
  as already loaded (a `VirtualFileSystem` with no mounted lazy
  directories), and the optional full-text index, write hooks and path
  hooks of `VirtualFileSystem` are modelled in their default
  (absent/empty) state, in which the corresponding update helpers are
  no-ops.  Timestamps (`created_at` / `modified_at`) are omitted; no
  verified property mentions them.
-/

namespace SandFS

/-! ## Policies and visibility (`src/sandfs/policies.py`) -/

/-- `NodePolicy` (policies.py).  `principals` is a set of identity strings,
modelled as a list (membership-only use). -/
structure NodePolicy where
  readable : Bool := true
  writable : Bool := true
  append_only : Bool := false
  classification : String := "public"
  principals : List String := []
  deriving Repr, DecidableEq

/-- `VisibilityView` (policies.py).  Path prefixes are stored as segment
lists; metadata values are modelled as strings. -/
structure VisibilityView where
  classifications : Option (List String) := none
  principals : Option (List String) := none
  path_prefixes : Option (List (List String)) := none
  metadata_filters : Option (List (String × String)) := none
  deriving Repr, DecidableEq

/-- `VisibilityView.allows` (policies.py lines 64-73). -/
def VisibilityView.allows (v : VisibilityView) (p : NodePolicy) : Bool :=
  if p.principals ≠ [] then
    match v.principals with
    | none => false
    | some vp => p.principals.any (fun s => vp.contains s)
  else
    match v.classifications with
    | none => true
    | some cs => cs.contains p.classification

/-- First-match lookup in an association list (the model of a Python
`dict`, whose keys are unique; insertion order is preserved). -/
def assocLookup {κ α : Type} [DecidableEq κ] (name : κ) : List (κ × α) → Option α
  | [] => none
  | (k, v) :: rest => if k = name then some v else assocLookup name rest

/-- `dict[name] = v` on an association list: replace the first binding of
`name` in place, or append a new binding. -/
def assocSet {κ α : Type} [DecidableEq κ] (name : κ) (v : α) : List (κ × α) → List (κ × α)
  | [] => [(name, v)]
  | (k, w) :: rest => if k = name then (k, v) :: rest else (k, w) :: assocSet name v rest

/-- `del dict[name]` / `dict.pop(name, None)` on an association list (first
binding removed). -/
def assocErase {κ α : Type} [DecidableEq κ] (name : κ) : List (κ × α) → List (κ × α)
  | [] => []
  | (k, w) :: rest => if k = name then rest else (k, w) :: assocErase name rest

/-- The path-prefix clause of `VisibilityView.allows_node`:
`node_path.is_relative_to(prefix) or prefix.is_relative_to(node_path)`. -/
def prefixOverlap (path : List String) (prefixes : List (List String)) : Bool :=
  prefixes.any (fun pre => pre.isPrefixOf path || path.isPrefixOf pre)

/-- `VisibilityView.allows_node` (policies.py lines 75-89), with the node
passed as its (policy, absolute path, metadata) observation. -/
def VisibilityView.allowsNode (v : VisibilityView) (policy : NodePolicy)
    (path : List String) (metadata : List (String × String)) : Bool :=
  v.allows policy &&
  (match v.path_prefixes with
   | none => true
   | some ps => prefixOverlap path ps) &&
  (match v.metadata_filters with
   | none => true
   | some fs => fs.all (fun kv => assocLookup kv.1 metadata == some kv.2))

/-- Truthiness of `self.view.metadata_filters` in Python: a non-`None`,
non-empty mapping. -/
def VisibilityView.metadataFiltersTruthy (v : VisibilityView) : Bool :=
  match v.metadata_filters with
  | none => false
  | some fs => fs ≠ []

/-! ## Paths (`VirtualFileSystem._normalize`, vfs.py lines 73-97) -/

/-- Python's `str.split(sep)` for a one-character separator, written over
the character list so that it computes by kernel reduction. -/
def splitOnChar (sep : Char) (s : String) : List String :=
  go s.toList []
where
  /-- Accumulate the current segment (reversed) and cut at each separator. -/
  go : List Char → List Char → List String
    | [], acc => [String.mk acc.reverse]
    | c :: rest, acc =>
      if c = sep then String.mk acc.reverse :: go rest []
      else go rest (c :: acc)

/-- Python's `str.strip()`: drop leading and trailing whitespace. -/
def pyStrip (s : String) : String :=
  String.mk (((s.toList.dropWhile Char.isWhitespace).reverse.dropWhile
    Char.isWhitespace).reverse)

/-- Python's `str.lower()` (ASCII suffices here). -/
def lowerStr (s : String) : String := String.mk (s.toList.map Char.toLower)

/-- Split a POSIX path string into its non-empty segments. -/
def splitPath (s : String) : List String :=
  (splitOnChar '/' s).filter (fun part => part ≠ "")

/-- The `.`/`..` loop of `_normalize`: `.` is skipped, `..` pops the last
resolved segment (stopping at root). -/
def applyDots (segs : List String) : List String :=
  segs.foldl (fun acc part =>
    if part = "." then acc
    else if part = ".." then acc.dropLast
    else acc ++ [part]) []

/-- `_normalize`: an empty path means the cwd; a relative path is joined
onto the cwd; then `.`/`..` are resolved. -/
def normalize (cwd : List String) (path : String) : List String :=
  if path = "" then applyDots cwd
  else if path.toList.head? = some '/' then applyDots (splitPath path)
  else applyDots (cwd ++ splitPath path)

/-! ## Nodes (`src/sandfs/nodes.py`) -/

/-- The data of a `VirtualFile`: `_content`, `_provider` (modelled by the
string it yields), `version`, `policy`, `metadata`. -/
structure FileData where
  content : String := ""
  provider : Option String := none
  version : Nat := 0
  policy : NodePolicy := {}
  metadata : List (String × String) := []
  deriving Repr, DecidableEq

/-- `VirtualFile.read`: the provider's value if one is set, else the static
content. -/
def FileData.read (fd : FileData) : String :=
  fd.provider.getD fd.content

/-- `VirtualFile.write` (nodes.py lines 70-75): append to or replace the
static content and clear the provider.  The node-level write does NOT touch
`version`; the facade bumps it separately. -/
def FileData.writeNode (fd : FileData) (data : String) (append : Bool) : FileData :=
  { fd with
    content := if append then fd.content ++ data else data
    provider := none }

/-- A node of the virtual tree: a `VirtualFile` or a `VirtualDirectory`
with its (loaded) children, policy and metadata.  Names live in the
parent's children map, as in the Python `children: dict[str, VirtualNode]`. -/
inductive VNode where
  | file (fd : FileData)
  | dir (children : List (String × VNode)) (policy : NodePolicy)
        (metadata : List (String × String))

/-- A fresh `VirtualDirectory` with default policy and no metadata. -/
def defaultDir : VNode := .dir [] {} []

def VNode.isDir : VNode → Bool
  | .file _ => false
  | .dir .. => true

def VNode.policyOf : VNode → NodePolicy
  | .file fd => fd.policy
  | .dir _ p _ => p

def VNode.metadataOf : VNode → List (String × String)
  | .file fd => fd.metadata
  | .dir _ _ m => m

/-- `children[name]` lookup (first match; keys are unique in Python). -/
def childLookup (name : String) : List (String × VNode) → Option VNode
  | [] => none
  | (k, c) :: rest => if k = name then some c else childLookup name rest

/-- Apply `g` to the child bound to `name` (first match), as an in-place
`children[name] = g(children[name])`. -/
def childMap (name : String) (g : VNode → VNode) : List (String × VNode) → List (String × VNode)
  | [] => []
  | (k, c) :: rest => if k = name then (k, g c) :: rest else (k, c) :: childMap name g rest

/-- `VirtualDirectory.remove_child`: `del children[name]` (first match). -/
def childErase (name : String) : List (String × VNode) → List (String × VNode)
  | [] => []
  | (k, c) :: rest => if k = name then rest else (k, c) :: childErase name rest

/-- Pure lookup of the node at a path below `t` (no error kinds). -/
def lookupNode : VNode → List String → Option VNode
  | n, [] => some n
  | .file _, _ :: _ => none
  | .dir ch _ _, name :: rest =>
    match childLookup name ch with
    | none => none
    | some c => lookupNode c rest

/-- Errors modelling `NodeNotFound`, `InvalidOperation` (which also covers
storage conflicts, version mismatches and type mismatches) and `NodeExists`. -/
inductive VfsError where
  | notFound
  | invalidOp
  | nodeExists
  deriving Repr, DecidableEq

/-- `VirtualFileSystem._resolve_node` (vfs.py lines 99-108): walk the tree
part by part; stepping through a non-directory is an `InvalidOperation`,
a missing child a `NodeNotFound`. -/
def resolveNode : VNode → List String → Except VfsError VNode
  | n, [] => .ok n
  | .file _, _ :: _ => .error .invalidOp
  | .dir ch _ _, name :: rest =>
    match childLookup name ch with
    | none => .error .notFound
    | some c => resolveNode c rest

/-- Rewrite the node at a path in place (identity where the path does not
exist or runs through a file, matching an update that is never attempted
there). -/
def updateAt (g : VNode → VNode) : List String → VNode → VNode
  | [], n => g n
  | _ :: _, .file fd => .file fd
  | name :: rest, .dir ch pol md => .dir (childMap name (updateAt g rest) ch) pol md

/-- The file data at a path, when the path resolves to a file. -/
def getFileAt (t : VNode) (parts : List String) : Option FileData :=
  match lookupNode t parts with
  | some (.file fd) => some fd
  | _ => none

/-- Rewrite the file data at a path in place. -/
def updateFileAt (parts : List String) (g : FileData → FileData) (t : VNode) : VNode :=
  updateAt (fun n => match n with | .file fd => .file (g fd) | other => other) parts t

/-- `VirtualFileSystem._resolve_dir` (create flag; vfs.py lines 110-128):
walk the parts, creating missing intermediate directories when `create`
holds; stepping onto or through an existing non-directory is an
`InvalidOperation`, a missing child without `create` a `NodeNotFound`.
Returns the tree after whatever creations happened before an error, as the
Python in-place mutation does. -/
def resolveDirAux (create : Bool) : List String → VNode → VNode × Option VfsError
  | [], n => (n, none)
  | _ :: _, .file fd => (.file fd, some .invalidOp)
  | name :: rest, .dir ch pol md =>
    match childLookup name ch with
    | none =>
      if create then
        let (c', err) := resolveDirAux create rest defaultDir
        (.dir (ch ++ [(name, c')]) pol md, err)
      else (.dir ch pol md, some .notFound)
    | some (.file _) => (.dir ch pol md, some .invalidOp)
    | some (.dir ch2 p2 m2) =>
      let (c', err) := resolveDirAux create rest (.dir ch2 p2 m2)
      (.dir (childMap name (fun _ => c') ch) pol md, err)

/-- `VirtualFileSystem._ensure_file` (vfs.py lines 130-149): resolve (and
with `create`, build) the parent directory chain, then return the tree with
the file present, or an error.  A normalized path has no empty segments, so
the `Missing file name` guard of the source cannot fire and is not
modelled. -/
def ensureFile (create : Bool) (t : VNode) (parts : List String) : VNode × Option VfsError :=
  match parts.getLast? with
  | none => (t, some .invalidOp)
  | some name =>
    let parentParts := parts.dropLast
    let (t1, err) := resolveDirAux create parentParts t
    match err with
    | some e => (t1, some e)
    | none =>
      match lookupNode t1 parentParts with
      | some (.dir ch _ _) =>
        (match childLookup name ch with
         | none =>
           if create then
             (updateAt (fun n => match n with
                | .dir ch2 p2 m2 => .dir (ch2 ++ [(name, .file {})]) p2 m2
                | other => other) parentParts t1, none)
           else (t1, some .notFound)
         | some (.file _) => (t1, none)
         | some (.dir ..) => (t1, some .invalidOp))
      | _ => (t1, some .invalidOp)

/-! ## Storage adapters (`src/sandfs/adapters.py`) -/

/-- `StorageEntry` (adapters.py). -/
structure StorageEntry where
  content : String
  version : Nat := 0
  deriving Repr, DecidableEq

/-- `MemoryStorageAdapter` (adapters.py lines 30-61): a dict from relative
path to entry. -/
structure MemoryStorageAdapter where
  entries : List (String × StorageEntry) := []
  deriving Repr, DecidableEq

/-- `MemoryStorageAdapter.write`: reject with a conflict (`ValueError`)
when an existing entry's version differs from the caller's expected
`version`; otherwise store `(content, version + 1)`. -/
def MemoryStorageAdapter.write (a : MemoryStorageAdapter) (path content : String)
    (version : Nat) : Except Unit (MemoryStorageAdapter × StorageEntry) :=
  match assocLookup path a.entries with
  | some e =>
    if e.version ≠ version then .error ()
    else
      let entry : StorageEntry := ⟨content, version + 1⟩
      .ok (⟨assocSet path entry a.entries⟩, entry)
  | none =>
    let entry : StorageEntry := ⟨content, version + 1⟩
    .ok (⟨assocSet path entry a.entries⟩, entry)

/-- `MemoryStorageAdapter.delete`: `entries.pop(path, None)`. -/
def MemoryStorageAdapter.delete (a : MemoryStorageAdapter) (path : String) :
    MemoryStorageAdapter :=
  ⟨assocErase path a.entries⟩

/-! ## The virtual filesystem facade (`src/sandfs/vfs.py`) -/

/-- `VirtualFileSystem` state: the root directory, the cwd (as a normalized
segment list), and the storage mounts with their adapters' states.  The
full-text index, search view and hook lists are modelled in their default
absent/empty state (see the header comment). -/
structure VFS where
  root : VNode := defaultDir
  cwd : List String := []
  mounts : List (List String × MemoryStorageAdapter) := []

/-- `_path_matches_prefix` (vfs.py lines 191-198): the root prefix matches
everything, otherwise `path.relative_to(prefix)` must succeed. -/
def pathMatchesPrefix (path pre : List String) : Bool :=
  pre.isPrefixOf path

/-- `_find_storage_mount` (vfs.py lines 209-218): among mounts whose prefix
governs `path`, the longest prefix wins (first such mount on a tie, as
Python's `max`). -/
def VFS.findStorageMount (vfs : VFS) (path : List String) :
    Option (List String × MemoryStorageAdapter) :=
  match vfs.mounts.filter (fun m => pathMatchesPrefix path m.1) with
  | [] => none
  | m :: rest =>
    some (rest.foldl (fun best cur => if cur.1.length > best.1.length then cur else best) m)

/-- `_relative_storage_path` (vfs.py lines 220-222). -/
def relativeStoragePath (path pre : List String) : String :=
  String.intercalate "/" (path.drop pre.length)

/-- Store a (possibly updated) adapter back under its mount prefix.  In
Python the adapter object is shared and mutated in place; here the state
is kept inside `VFS.mounts`. -/
def setMountAdapter (mounts : List (List String × MemoryStorageAdapter))
    (pre : List String) (a : MemoryStorageAdapter) :
    List (List String × MemoryStorageAdapter) :=
  match mounts with
  | [] => [(pre, a)]
  | (k, w) :: rest =>
    if k = pre then (k, a) :: rest else (k, w) :: setMountAdapter rest pre a

/-- `_persist_storage` (vfs.py lines 224-234), called with the already
written-to-memory file at `parts` and the pre-write version: persist to the
governing mount if any; on adapter rejection roll the in-memory *version*
back to `previousVersion` and raise a storage conflict (`InvalidOperation`).
Note the in-memory *content* is not rolled back. -/
def VFS.persistStorage (vfs : VFS) (parts : List String) (previousVersion : Nat) :
    VFS × Option VfsError :=
  match vfs.findStorageMount parts with
  | none => (vfs, none)
  | some (pre, adapter) =>
    let relative := relativeStoragePath parts pre
    let content := match getFileAt vfs.root parts with
                   | some fd => fd.read
                   | none => ""
    match adapter.write relative content previousVersion with
    | .ok res =>
      ({ vfs with mounts := setMountAdapter vfs.mounts pre res.1 }, none)
    | .error _ =>
      ({ vfs with
          root := updateFileAt parts (fun fd => { fd with version := previousVersion }) vfs.root },
       some .invalidOp)

/-- `_ensure_write_allowed` (vfs.py lines 155-159) as a boolean: writable,
and not append-only unless appending. -/
def NodePolicy.writeOk (p : NodePolicy) (append : Bool := false) : Bool :=
  p.writable && (!p.append_only || append)

/-- `VirtualFileSystem.write_file` (vfs.py lines 504-523): ensure the file
exists (creating it and intermediate directories), check writability and
the optional expected version, apply the node-level write, bump `version`,
then persist to any governing storage mount.  With no index or hooks the
remaining steps are no-ops. -/
def VFS.write_file (vfs : VFS) (path data : String)
    (append : Bool := false) (expected_version : Option Nat := none) :
    VFS × Option VfsError :=
  let parts := normalize vfs.cwd path
  let (root1, err) := ensureFile true vfs.root parts
  let vfs1 := { vfs with root := root1 }
  match err with
  | some e => (vfs1, some e)
  | none =>
    match getFileAt root1 parts with
    | none => (vfs1, some .invalidOp)
    | some fd =>
      if ¬ fd.policy.writeOk append then (vfs1, some .invalidOp)
      else if (match expected_version with
               | some ev => fd.version != ev
               | none => false) then (vfs1, some .invalidOp)
      else
        let previousVersion := fd.version
        let root2 := updateFileAt parts
          (fun f => { f.writeNode data append with version := f.version + 1 }) root1
        VFS.persistStorage { vfs1 with root := root2 } parts previousVersion

/-- `VirtualFileSystem.read_file` (vfs.py lines 534-537): resolve the file
(no creation), require it readable, and read it. -/
def VFS.read_file (vfs : VFS) (path : String) : Except VfsError String :=
  let parts := normalize vfs.cwd path
  let (_, err) := ensureFile false vfs.root parts
  match err with
  | some e => .error e
  | none =>
    match getFileAt vfs.root parts with
    | none => .error .invalidOp
    | some fd =>
      if ¬ fd.policy.readable then .error .invalidOp
      else .ok fd.read

/-- `VirtualFileSystem.get_version` (vfs.py lines 854-858). -/
def VFS.get_version (vfs : VFS) (path : String) : Except VfsError Nat :=
  match resolveNode vfs.root (normalize vfs.cwd path) with
  | .error e => .error e
  | .ok (.file fd) => .ok fd.version
  | .ok (.dir ..) => .error .invalidOp

/-- `VirtualFileSystem.exists` (vfs.py lines 847-852): resolution failures
(`NodeNotFound` and `InvalidOperation` — the only kinds `_resolve_node`
raises, see `resolveNode_error_kinds`) yield `false`. -/
def VFS.exists (vfs : VFS) (path : String) : Bool :=
  match resolveNode vfs.root (normalize vfs.cwd path) with
  | .ok _ => true
  | .error _ => false

/-- `VirtualFileSystem.is_dir` (vfs.py lines 860-864). -/
def VFS.is_dir (vfs : VFS) (path : String) : Bool :=
  match resolveNode vfs.root (normalize vfs.cwd path) with
  | .ok n => n.isDir
  | .error _ => false

/-- `VirtualFileSystem.is_file` (vfs.py lines 866-870). -/
def VFS.is_file (vfs : VFS) (path : String) : Bool :=
  match resolveNode vfs.root (normalize vfs.cwd path) with
  | .ok n => !n.isDir
  | .error _ => false

/-- `VirtualFileSystem.mkdir` (vfs.py lines 477-502). -/
def VFS.mkdir (vfs : VFS) (path : String)
    (parents : Bool := false) (exist_ok : Bool := false) : VFS × Option VfsError :=
  let parts := normalize vfs.cwd path
  match parts.getLast? with
  | none => (vfs, none)
  | some name =>
    let parentParts := parts.dropLast
    let (root1, err) := resolveDirAux parents parentParts vfs.root
    let vfs1 := { vfs with root := root1 }
    match err with
    | some e => (vfs1, some e)
    | none =>
      match lookupNode root1 parentParts with
      | some (.dir ch pol _) =>
        if ¬ pol.writeOk then (vfs1, some .invalidOp)
        else
          (match childLookup name ch with
           | none =>
             ({ vfs1 with
                 root := updateAt (fun n => match n with
                   | .dir ch2 p2 m2 => .dir (ch2 ++ [(name, defaultDir)]) p2 m2
                   | other => other) parentParts root1 }, none)
           | some (.dir ..) =>
             if exist_ok then (vfs1, none) else (vfs1, some .nodeExists)
           | some (.file _) => (vfs1, some .invalidOp))
      | _ => (vfs1, some .invalidOp)

/-- `_load_storage_mount` (vfs.py lines 244-252): clear the mount
directory's children, then create one file per adapter entry, writing its
content (node-level) and stamping the adapter-reported version. -/
def VFS.loadStorageMount (vfs : VFS) (pre : List String) (adapter : MemoryStorageAdapter) :
    VFS :=
  let root1 := updateAt (fun n => match n with
    | .dir _ pol md => .dir [] pol md
    | other => other) pre vfs.root
  adapter.entries.foldl (fun acc entry =>
    let parts := pre ++ splitPath entry.1
    let (r1, _) := ensureFile true acc.root parts
    let r2 := updateFileAt parts
      (fun fd => { fd.writeNode entry.2.content false with version := entry.2.version }) r1
    { acc with root := r2 }) { vfs with root := root1 }

/-- `VirtualFileSystem.mount_storage` (vfs.py lines 899-913), with no
policy override: make the mount directory, register the adapter, and load
its listing (the index rebuild is a no-op without an index). -/
def VFS.mount_storage (vfs : VFS) (path : String) (adapter : MemoryStorageAdapter) :
    VFS × Option VfsError :=
  let pre := normalize vfs.cwd path
  let (vfs1, err) := vfs.mkdir path true true
  match err with
  | some e => (vfs1, some e)
  | none =>
    let vfs2 := { vfs1 with mounts := setMountAdapter vfs1.mounts pre adapter }
    (vfs2.loadStorageMount pre adapter, none)

mutual

/-- `_clone_node` (vfs.py lines 687-702).  A file clone is a fresh
`VirtualFile` (version 0) carrying a copy of the metadata, a clone of the
policy, whose content is then set by the node-level write of
`node.read()` (so a provider-backed source yields a static clone and the
version stays 0).  A directory clone clones every child — the `recursive`
flag is threaded through by the source but never consulted below the top
level, so it does not appear here. -/
def cloneNode : VNode → VNode
  | .file fd =>
    .file { content := fd.read, provider := none, version := 0,
            policy := fd.policy, metadata := fd.metadata }
  | .dir ch pol md => .dir (cloneChildren ch) pol md

/-- The children loop of the directory branch of `_clone_node`. -/
def cloneChildren : List (String × VNode) → List (String × VNode)
  | [] => []
  | (k, c) :: rest => (k, cloneNode c) :: cloneChildren rest

end

/-- Detach the child `name` of the directory at `parentParts`
(`parent.remove_child(name)`). -/
def removeChildAt (parentParts : List String) (name : String) (t : VNode) : VNode :=
  updateAt (fun n => match n with
    | .dir ch pol md => .dir (childErase name ch) pol md
    | other => other) parentParts t

/-- Attach `node` as child `name` of the directory at `parentParts`
(`dest_parent.add_child(node)` after the existence check). -/
def addChildAt (parentParts : List String) (name : String) (node : VNode) (t : VNode) : VNode :=
  updateAt (fun n => match n with
    | .dir ch pol md => .dir (ch ++ [(name, node)]) pol md
    | other => other) parentParts t

/-- The tail of `VirtualFileSystem.move` (vfs.py lines 604-628) once the
destination parent path `dpp` and destination name `dname` are known:
topology checks, the same-place no-op, detaching the source and attaching
it under its new name (`add_child` raises `NodeExists` on a name clash,
after the source has already been detached). -/
def VFS.moveFinish (vfs : VFS) (node : VNode) (srcParts dpp : List String)
    (dname : String) : VFS × Option VfsError :=
  let srcName := (srcParts.getLast?).getD ""
  if node.isDir && srcParts.isPrefixOf dpp then
    -- `dest_parent_path.relative_to(node_path)` succeeding (also on equal
    -- paths) raises "Cannot move a directory inside itself"; the following
    -- equality check of the source is therefore unreachable.
    (vfs, some .invalidOp)
  else if dpp = srcParts.dropLast ∧ dname = srcName then (vfs, none)
  else if dpp = srcParts then (vfs, some .invalidOp)
  else
    let root1 := removeChildAt srcParts.dropLast srcName vfs.root
    match lookupNode root1 dpp with
    | some (.dir dch _ _) =>
      (match childLookup dname dch with
       | some _ => ({ vfs with root := root1 }, some .nodeExists)
       | none => ({ vfs with root := addChildAt dpp dname node root1 }, none))
    | _ => ({ vfs with root := root1 }, some .invalidOp)

/-- `VirtualFileSystem.move` (vfs.py lines 572-628).  Moving onto an
existing directory re-parents the source inside it under its own name;
moving onto an existing *file* raises `InvalidOperation` ("Destination
already exists"); a non-existing destination re-parents under the
destination's parent with the destination's final name.  Index updates are
no-ops without an index. -/
def VFS.move (vfs : VFS) (source target : String) : VFS × Option VfsError :=
  let srcParts := normalize vfs.cwd source
  if srcParts = [] then (vfs, some .invalidOp)
  else
    match resolveNode vfs.root srcParts with
    | .error e => (vfs, some e)
    | .ok node =>
      match lookupNode vfs.root srcParts.dropLast with
      | some (.dir _ ppol _) =>
        if ¬ node.policyOf.writeOk then (vfs, some .invalidOp)
        else if ¬ ppol.writeOk then (vfs, some .invalidOp)
        else
          let destParts := normalize vfs.cwd target
          match resolveNode vfs.root destParts with
          | .ok (.dir _ dpol _) =>
            if ¬ dpol.writeOk then (vfs, some .invalidOp)
            else vfs.moveFinish node srcParts destParts ((srcParts.getLast?).getD "")
          | .ok (.file _) => (vfs, some .invalidOp)
          | .error _ =>
            match resolveNode vfs.root destParts.dropLast with
            | .error e => (vfs, some e)
            | .ok (.dir _ dpol _) =>
              if ¬ dpol.writeOk then (vfs, some .invalidOp)
              else
                match destParts.getLast? with
                | none => (vfs, some .invalidOp)
                | some dname => vfs.moveFinish node srcParts destParts.dropLast dname
            | .ok (.file _) => (vfs, some .invalidOp)
      | _ => (vfs, some .invalidOp)

/-- The tail of `VirtualFileSystem.copy` (vfs.py lines 670-685) once the
destination parent path `dpp` and name `dname` are known and any
overwritten file has been detached from `t`: topology check for
directories, then attach a clone of the source. -/
def VFS.copyFinish (vfs : VFS) (t : VNode) (node : VNode) (srcParts dpp : List String)
    (dname : String) : VFS × Option VfsError :=
  if node.isDir && srcParts.isPrefixOf (dpp ++ [dname]) then
    ({ vfs with root := t }, some .invalidOp)
  else
    match lookupNode t dpp with
    | some (.dir dch _ _) =>
      (match childLookup dname dch with
       | some _ => ({ vfs with root := t }, some .nodeExists)
       | none => ({ vfs with root := addChildAt dpp dname (cloneNode node) t }, none))
    | _ => ({ vfs with root := t }, some .invalidOp)

/-- `VirtualFileSystem.copy` (vfs.py lines 630-685).  Copying onto an
existing directory places the clone inside it under the source's own name;
copying onto an existing *file* detaches the old node first and replaces it
(the single overwrite branch); a non-existing destination creates the clone
under the destination's parent.  The destination parent (and, for the
overwrite branch, the overwritten file itself) must be writable; the
source must be readable. -/
def VFS.copy (vfs : VFS) (source target : String) (recursive : Bool := false) :
    VFS × Option VfsError :=
  let srcParts := normalize vfs.cwd source
  match resolveNode vfs.root srcParts with
  | .error e => (vfs, some e)
  | .ok node =>
    if node.isDir && !recursive then (vfs, some .invalidOp)
    else if ¬ node.policyOf.readable then (vfs, some .invalidOp)
    else
      let destParts := normalize vfs.cwd target
      match resolveNode vfs.root destParts with
      | .ok (.dir _ dpol _) =>
        if ¬ dpol.writeOk then (vfs, some .invalidOp)
        else vfs.copyFinish vfs.root node srcParts destParts ((srcParts.getLast?).getD "")
      | .ok (.file dfd) =>
        -- `dest_node.parent is None` only at the root, which is a
        -- directory, so that guard is unreachable here.
        (match lookupNode vfs.root destParts.dropLast with
         | some (.dir _ ppol _) =>
           if ¬ ppol.writeOk then (vfs, some .invalidOp)
           else if ¬ dfd.policy.writeOk then (vfs, some .invalidOp)
           else
             let dname := (destParts.getLast?).getD ""
             let root1 := removeChildAt destParts.dropLast dname vfs.root
             vfs.copyFinish root1 node srcParts destParts.dropLast dname
         | _ => (vfs, some .invalidOp))
      | .error _ =>
        match resolveNode vfs.root destParts.dropLast with
        | .error e => (vfs, some e)
        | .ok (.dir _ dpol _) =>
          if ¬ dpol.writeOk then (vfs, some .invalidOp)
          else
            match destParts.getLast? with
            | none => (vfs, some .invalidOp)
            | some dname => vfs.copyFinish vfs.root node srcParts destParts.dropLast dname
        | .ok (.file _) => (vfs, some .invalidOp)

/-! ## Full-text search (`src/sandfs/search.py`) -/

/-- `str.splitlines` for texts whose line separator is `\n` (the only
separator the verified properties use): every `\n` terminates a line and a
trailing `\n` does not open an empty final line. -/
def splitlines (s : String) : List String :=
  if s = "" then []
  else
    let parts := splitOnChar '\n' s
    if parts.getLast? = some "" then parts.dropLast else parts

/-- Python's `sub in s` substring test. -/
def strContains (sub s : String) : Bool :=
  (s.toList.tails).any (fun t => sub.toList.isPrefixOf t)

/-- `SearchQuery` (search.py).  `path_prefix` is a normalized segment
list. -/
structure SearchQuery where
  query : String
  regex : Bool := false
  ignore_case : Bool := false
  path_prefix : Option (List String) := none
  deriving Repr, DecidableEq

/-- `SearchResult` (search.py): 1-based line number and the matched line's
text. -/
structure SearchResult where
  path : List String
  line_no : Nat
  line_text : String
  deriving Repr, DecidableEq

/-- `FullTextIndex` (search.py): a dict from path to full text content. -/
structure FullTextIndex where
  files : List (List String × String) := []
  deriving Repr, DecidableEq

/-- `FullTextIndex.index_file` (search.py lines 38-39). -/
def FullTextIndex.index_file (ix : FullTextIndex) (path : List String) (content : String) :
    FullTextIndex :=
  ⟨assocSet path content ix.files⟩

/-- `FullTextIndex.remove_file` (search.py lines 41-42). -/
def FullTextIndex.remove_file (ix : FullTextIndex) (path : List String) : FullTextIndex :=
  ⟨assocErase path ix.files⟩

/-- The per-line match test of `FullTextIndex.search`: the regular
expression branch (`compiled.search(line)`) is abstracted by the `reMatch`
parameter (irrelevant to the literal queries verified below); the two
literal branches are the source's — case-insensitively an *empty* lowered
query is falsy and matches nothing, case-sensitively `query in line`. -/
def lineMatches (reMatch : String → String → Bool) (q : SearchQuery) (line : String) : Bool :=
  if q.regex then reMatch q.query line
  else if q.ignore_case then
    lowerStr q.query ≠ "" && strContains (lowerStr q.query) (lowerStr line)
  else strContains q.query line

/-- The inner loop of `FullTextIndex.search`: `enumerate(splitlines, start=1)`. -/
def searchLines (reMatch : String → String → Bool) (q : SearchQuery) (path : List String) :
    Nat → List String → List SearchResult
  | _, [] => []
  | n, line :: rest =>
    (if lineMatches reMatch q line then [⟨path, n, line⟩] else []) ++
      searchLines reMatch q path (n + 1) rest

/-- `FullTextIndex.search` (search.py lines 44-67): iterate the indexed
files in insertion order, skip files outside `path_prefix`, and report a
result per matching line. -/
def FullTextIndex.search (ix : FullTextIndex) (reMatch : String → String → Bool)
    (q : SearchQuery) : List SearchResult :=
  ix.files.foldl (fun acc pc =>
    if (match q.path_prefix with
        | some pre => !pre.isPrefixOf pc.1
        | none => false) then acc
    else acc ++ searchLines reMatch q pc.1 1 (splitlines pc.2)) []

/-! ## Shell (`src/sandfs/shell.py`, `src/sandfs/shell_parser.py`) -/

/-- `CommandResult` (shell.py lines 25-29). -/
structure CommandResult where
  stdout : String := ""
  stderr : String := ""
  exit_code : Int := 0
  deriving Repr, DecidableEq

/-- `CommandSpec` (shell_parser.py lines 10-17): one pipeline segment. -/
structure CommandSpec where
  name : Option String := none
  args : List String := []
  assignments : List (String × String) := []
  stdin : Option String := none
  stdout : Option String := none
  append : Bool := false
  deriving Repr, DecidableEq

/-- `SandboxShell._ensure_visible_path` (shell.py lines 103-122), as the
error it raises (`none` = the path passes).  The `self.view is None` early
return is unreachable — the constructor always installs a view.  In order:
the path-prefix overlap check on the normalized path; `get_node`
(`NodeNotFound` is swallowed, an `InvalidOperation` from resolving through
a file propagates); the policy-level `allows` check; the directory
exemption when metadata filters are present; the full `allows_node`
check. -/
def ensureVisiblePath (view : VisibilityView) (vfs : VFS) (path : String) : Option VfsError :=
  let normalized := normalize vfs.cwd path
  if (match view.path_prefixes with
      | some ps => !prefixOverlap normalized ps
      | none => false) then some .invalidOp
  else
    match resolveNode vfs.root normalized with
    | .error .notFound => none
    | .error e => some e
    | .ok node =>
      if ¬ view.allows node.policyOf then some .invalidOp
      else if view.metadataFiltersTruthy && node.isDir then none
      else if ¬ view.allowsNode node.policyOf normalized node.metadataOf then some .invalidOp
      else none

/-- `"".join(filter(None, chunks))`. -/
def joinChunks (chunks : List String) : String :=
  String.join (chunks.filter (fun s => s ≠ ""))

/-- `SandboxShell._enforce_output_limit` (shell.py lines 124-134); `len` on
a Python `str` counts characters, modelled by `String.length`. -/
def enforceOutputLimit (maxBytes : Option Nat) (r : CommandResult) : CommandResult :=
  match maxBytes with
  | none => r
  | some m =>
    if r.stdout.length + r.stderr.length ≤ m then r
    else { stdout := "", stderr := s!"Output limit ({m} bytes) exceeded", exit_code := 1 }

/-- The collaborators the pipeline executor calls out to, abstracted as
parameters over a state type `σ` (the VFS, view and command registry they
act on): `runCommand` is `_run_command` (total — it catches every handler
exception into a `CommandResult`, and applies the output limit itself),
`readFromPath` / `writeToPath` are `_read_from_path` / `_write_to_path`
(which may raise), `expandVars` / `expandArgs` are the variable and glob
expanders, and `parsePipeline` is `shell_parser.parse_pipeline`
(`ValueError` with a message on malformed syntax).  `max_output_bytes` is
the shell's optional output budget. -/
structure ShellCfg (σ : Type) where
  max_output_bytes : Option Nat := none
  runCommand : σ → String → List String → String → List (String × String) → σ × CommandResult
  readFromPath : σ → String → σ × Except VfsError String
  writeToPath : σ → String → String → Bool → σ × Option VfsError
  expandVars : List (String × String) → String → String
  expandArgs : σ → List (String × String) → String → List String → List String
  parsePipeline : String → Except String (List CommandSpec)

/-- The mutable shell state threaded through `exec`: the persistent
environment plus the collaborator state. -/
structure ShellState (σ : Type) where
  env : List (String × String)
  inner : σ

/-- The environment one segment runs with (shell.py lines 303-307): a copy
of the shell environment updated with the segment's assignments, each value
expanded against that copy before any update. -/
def segmentEnv {σ : Type} (cfg : ShellCfg σ) (env : List (String × String))
    (spec : CommandSpec) : List (String × String) :=
  (spec.assignments.map (fun kv => (kv.1, cfg.expandVars env kv.2))).foldl
    (fun e kv => assocSet kv.1 kv.2 e) env

/-- A segment's standard input (shell.py lines 311-314): the previous
segment's piped stdout, unless a `<path` redirection reads from a path. -/
def segmentStdin {σ : Type} (cfg : ShellCfg σ) (inner : σ) (env : List (String × String))
    (spec : CommandSpec) (stdoutPipe : String) : σ × Except VfsError String :=
  match spec.stdin with
  | none => (inner, .ok stdoutPipe)
  | some sp => cfg.readFromPath inner (cfg.expandVars env sp)

/-- The segment loop of `SandboxShell._exec_pipeline` (shell.py lines
297-343): thread stdout into the next stdin, accumulate stderr chunks, and
return the failing segment's result (stderr joined so far, its exit code)
as soon as a segment exits non-zero; a `>path` redirection diverts stdout
and pipes the empty string onward. -/
def execSegments {σ : Type} (cfg : ShellCfg σ) :
    ShellState σ → String → List String → List CommandSpec →
    ShellState σ × Except VfsError CommandResult
  | st, stdoutPipe, stderrChunks, [] =>
    (st, .ok (enforceOutputLimit cfg.max_output_bytes
      { stdout := stdoutPipe, stderr := joinChunks stderrChunks, exit_code := 0 }))
  | st, stdoutPipe, stderrChunks, spec :: rest =>
    match spec.name with
    | none => (st, .ok { stdout := "", stderr := "Missing command in pipeline", exit_code := 2 })
    | some rawName =>
      let env := segmentEnv cfg st.env spec
      let name := cfg.expandVars env rawName
      let args := cfg.expandArgs st.inner env name spec.args
      match segmentStdin cfg st.inner env spec stdoutPipe with
      | (inner1, .error e) => ({ st with inner := inner1 }, .error e)
      | (inner1, .ok stdinData) =>
        let (inner2, result) := cfg.runCommand inner1 name args stdinData env
        let stderrChunks' := stderrChunks ++ [result.stderr]
        if result.exit_code ≠ 0 then
          ({ st with inner := inner2 }, .ok (enforceOutputLimit cfg.max_output_bytes
            { stdout := result.stdout, stderr := joinChunks stderrChunks',
              exit_code := result.exit_code }))
        else
          match spec.stdout with
          | some op =>
            (match cfg.writeToPath inner2 (cfg.expandVars env op) result.stdout spec.append with
             | (inner3, some e) => ({ st with inner := inner3 }, .error e)
             | (inner3, none) => execSegments cfg { st with inner := inner3 } "" stderrChunks' rest)
          | none => execSegments cfg { st with inner := inner2 } result.stdout stderrChunks' rest

/-- `SandboxShell._exec_pipeline` (shell.py lines 281-343) on one line:
blank input and an empty parse are successful no-ops, a parse error is
reported with exit code 2 before any command runs, a single segment with no
command name applies its assignments to the persistent environment
(expanding each against the environment as it updates), and otherwise the
segment loop runs. -/
def execPipeline {σ : Type} (cfg : ShellCfg σ) (st : ShellState σ) (command : String) :
    ShellState σ × Except VfsError CommandResult :=
  if pyStrip command = "" then (st, .ok {})
  else
    match cfg.parsePipeline command with
    | .error msg => (st, .ok { stdout := "", stderr := msg, exit_code := 2 })
    | .ok [] => (st, .ok {})
    | .ok [spec] =>
      if spec.name.isNone then
        let env' := spec.assignments.foldl
          (fun e kv => assocSet kv.1 (cfg.expandVars e kv.2) e) st.env
        ({ st with env := env' }, .ok {})
      else execSegments cfg st "" [] [spec]
    | .ok cmds => execSegments cfg st "" [] cmds

/-- The line loop of `SandboxShell.exec` (shell.py lines 273-279), carrying
the last pipeline result: run each line, returning the first result whose
exit code is non-zero. -/
def execLines {σ : Type} (cfg : ShellCfg σ) :
    ShellState σ → CommandResult → List String →
    ShellState σ × Except VfsError CommandResult
  | st, last, [] => (st, .ok last)
  | st, _, line :: rest =>
    match execPipeline cfg st line with
    | (st1, .error e) => (st1, .error e)
    | (st1, .ok r) =>
      if r.exit_code ≠ 0 then (st1, .ok r) else execLines cfg st1 r rest

/-- The non-blank stripped lines of a command string
(`filter(None, (line.strip() for line in command.splitlines()))`; lines are
split at `\n`, and `strip` also removes a `\r` of a `\r\n` ending). -/
def nonBlankLines (command : String) : List String :=
  ((splitOnChar '\n' command).map pyStrip).filter (fun l => l ≠ "")

/-- `SandboxShell.exec` (shell.py lines 273-279). -/
def ShellCfg.exec {σ : Type} (cfg : ShellCfg σ) (st : ShellState σ) (command : String) :
    ShellState σ × Except VfsError CommandResult :=
  execLines cfg st {} (nonBlankLines command)

/-! ## The storage-conflict scenario

The concrete run of `tests/test_adapters.py::
test_storage_adapter_conflict_preserves_cached_state`, replayed through the
embedded facade: mount an adapter holding `conflict.txt -> ("initial", 0)`
at `/data`, write `"local-one"` through the facade, update the adapter
externally, then write `"local-two"` with the now-stale in-memory version
as `expected_version`. -/

/-- `MemoryStorageAdapter(initial={"conflict.txt": "initial"})`. -/
def conflictAdapter0 : MemoryStorageAdapter := ⟨[("conflict.txt", ⟨"initial", 0⟩)]⟩

/-- The VFS after `mount_storage("/data", adapter)`. -/
def conflictState1 : VFS := (VFS.mount_storage {} "/data" conflictAdapter0).1

/-- ... after `write_file("/data/conflict.txt", "local-one")`. -/
def conflictState2 : VFS := (conflictState1.write_file "/data/conflict.txt" "local-one").1

/-- The adapter state after the external
`adapter.write("conflict.txt", "external", version=adapter.read(...).version)`. -/
def conflictAdapter3 : MemoryStorageAdapter :=
  let current := (assocLookup "data" (conflictState2.mounts.map (fun m =>
    (String.intercalate "/" m.1, m.2)))).getD ⟨[]⟩
  let v := ((assocLookup "conflict.txt" current.entries).getD ⟨"", 0⟩).version
  match current.write "conflict.txt" "external" v with
  | .ok (a, _) => a
  | .error _ => current

/-- The VFS seen by the conflicting write (the shared adapter object's new
state put back under its mount). -/
def conflictState3 : VFS :=
  { conflictState2 with
    mounts := setMountAdapter conflictState2.mounts ["data"] conflictAdapter3 }

/-- The conflicting facade write
`write_file("/data/conflict.txt", "local-two", expected_version=1)`:
resulting state and raised error. -/
def conflictWrite : VFS × Option VfsError :=
  conflictState3.write_file "/data/conflict.txt" "local-two" false (some 1)

/-! ## Derived notions used by the verified properties -/

/-- `write_file` iterated `n` times on the same path and data. -/
def iterWrite (path data : String) : Nat → VFS → VFS
  | 0, vfs => vfs
  | n + 1, vfs => iterWrite path data n (vfs.write_file path data).1

/-- "The version produced by writing its content once": the `version` of a
freshly constructed `VirtualFile` after one node-level
`VirtualFile.write(content)` (nodes.py lines 70-75), which does not bump
`version` — so this is `0` whatever the content. -/
def versionAfterOneNodeWrite (content : String) : Nat :=
  (FileData.writeNode {} content false).version

/-- A small concrete state: a default-policy, version-0 file `a.txt` under
the root — a "fresh file" as produced by a first `_ensure_file` creation. -/
def freshFileState : VFS :=
  { root := .dir [("a.txt", .file {})] {} [], cwd := [], mounts := [] }

/-- Two distinct default-policy files under the root, for exercising move
and copy onto an existing *file* destination. -/
def twoFileState : VFS :=
  { root := .dir [("a.txt", .file { content := "A" }),
                  ("b.txt", .file { content := "B" })] {} [],
    cwd := [], mounts := [] }

/-- A file and an empty directory under the root, for exercising move and
copy onto an existing *directory* destination. -/
def fileDirState : VFS :=
  { root := .dir [("a.txt", .file { content := "A" }), ("d", defaultDir)] {} [],
    cwd := [], mounts := [] }

/-- A tiny concrete collaborator set over the trivial state, for exercising
the pipeline executor: the command `fail` exits 1 with stderr `boom`, any
other command prints `ok`; reads yield the empty string, writes succeed,
expansion is the identity, and a line parses into one segment per
`|`-separated trimmed name. -/
def unitShellCfg : ShellCfg Unit where
  max_output_bytes := none
  runCommand := fun u name _ _ _ =>
    (u, if name = "fail" then { stdout := "", stderr := "boom", exit_code := 1 }
        else { stdout := "ok", stderr := "", exit_code := 0 })
  readFromPath := fun u _ => (u, .ok "")
  writeToPath := fun u _ _ _ => (u, none)
  expandVars := fun _ s => s
  expandArgs := fun _ _ _ specArgs => specArgs
  parsePipeline := fun line =>
    .ok ((splitOnChar '|' line).map (fun seg => { name := some (pyStrip seg) }))

mutual

/-- Well-formedness of a tree as every Python `VirtualDirectory` enjoys it
by construction: the names in each `children` dict are pairwise distinct
(`add_child` refuses duplicates). -/
def VNode.wfB : VNode → Bool
  | .file _ => true
  | .dir ch _ _ => decide (ch.map Prod.fst).Nodup && childrenWfB ch

/-- `wfB` over a children list. -/
def childrenWfB : List (String × VNode) → Bool
  | [] => true
  | (_, c) :: rest => c.wfB && childrenWfB rest

end

/-! ## Lemmas about children maps -/

theorem childLookup_childMap_self (name : String) (g : VNode → VNode)
    (ch : List (String × VNode)) :
    childLookup name (childMap name g ch) = (childLookup name ch).map g := by
  induction ch with
  | nil => simp [childLookup, childMap]
  | cons kc rest ih =>
    obtain ⟨k, c⟩ := kc
    by_cases hk : k = name <;> simp [childLookup, childMap, hk, ih]

theorem childLookup_childMap_ne (k name : String) (hk : k ≠ name) (g : VNode → VNode)
    (ch : List (String × VNode)) :
    childLookup k (childMap name g ch) = childLookup k ch := by
  induction ch with
  | nil => rfl
  | cons kc rest ih =>
    obtain ⟨k', c⟩ := kc
    simp only [childMap]
    by_cases h1 : k' = name
    · have h2 : k' ≠ k := by rw [h1]; exact Ne.symm hk
      rw [if_pos h1]
      simp only [childLookup, if_neg h2]
    · rw [if_neg h1]
      simp only [childLookup]
      by_cases h2 : k' = k
      · rw [if_pos h2, if_pos h2]
      · rw [if_neg h2, if_neg h2, ih]

theorem childMap_const_of_lookup (name : String) (c : VNode) (ch : List (String × VNode))
    (h : childLookup name ch = some c) :
    childMap name (fun _ => c) ch = ch := by
  induction ch with
  | nil => simp [childMap]
  | cons kc rest ih =>
    obtain ⟨k, c'⟩ := kc
    simp only [childLookup] at h
    simp only [childMap]
    by_cases hk : k = name
    · rw [if_pos hk] at h
      rw [if_pos hk]
      injection h with h'
      rw [h']
    · rw [if_neg hk] at h
      rw [if_neg hk, ih h]

theorem childMap_of_lookup_none (name : String) (g : VNode → VNode)
    (ch : List (String × VNode)) (h : childLookup name ch = none) :
    childMap name g ch = ch := by
  induction ch with
  | nil => simp [childMap]
  | cons kc rest ih =>
    obtain ⟨k, c⟩ := kc
    by_cases hk : k = name
    · subst hk; simp [childLookup] at h
    · simp only [childLookup, if_neg hk] at h
      simp [childMap, hk, ih h]

theorem childMap_eq_const (name : String) (f : VNode → VNode) (ch : List (String × VNode))
    (c : VNode) (h : childLookup name ch = some c) :
    childMap name f ch = childMap name (fun _ => f c) ch := by
  induction ch with
  | nil => rfl
  | cons kc rest ih =>
    obtain ⟨k, c'⟩ := kc
    simp only [childLookup] at h
    simp only [childMap]
    by_cases hk : k = name
    · rw [if_pos hk] at h
      rw [if_pos hk, if_pos hk]
      injection h with h'
      rw [h']
    · rw [if_neg hk] at h
      rw [if_neg hk, if_neg hk, ih h]

theorem childMap_congr (name : String) (f g : VNode → VNode) (ch : List (String × VNode))
    (h : ∀ x, f x = g x) : childMap name f ch = childMap name g ch := by
  induction ch with
  | nil => rfl
  | cons kc rest ih =>
    obtain ⟨k, c⟩ := kc
    by_cases hk : k = name <;> simp [childMap, hk, h, ih]

theorem childLookup_eq_none_of_not_mem (k : String) (ch : List (String × VNode))
    (h : k ∉ ch.map Prod.fst) : childLookup k ch = none := by
  induction ch with
  | nil => rfl
  | cons kc rest ih =>
    obtain ⟨k', c⟩ := kc
    simp only [List.map_cons, List.mem_cons] at h
    push_neg at h
    simp [childLookup, Ne.symm h.1, ih h.2]

theorem childLookup_childErase_ne (k name : String) (hk : k ≠ name)
    (ch : List (String × VNode)) :
    childLookup k (childErase name ch) = childLookup k ch := by
  induction ch with
  | nil => simp [childErase]
  | cons kc rest ih =>
    obtain ⟨k', c⟩ := kc
    simp only [childErase]
    by_cases h1 : k' = name
    · have h2 : k' ≠ k := by rw [h1]; exact Ne.symm hk
      rw [if_pos h1]
      simp only [childLookup, if_neg h2]
    · rw [if_neg h1]
      simp only [childLookup]
      by_cases h2 : k' = k
      · rw [if_pos h2, if_pos h2]
      · rw [if_neg h2, if_neg h2, ih]

theorem childLookup_childErase_self (name : String) (ch : List (String × VNode))
    (hnd : (ch.map Prod.fst).Nodup) :
    childLookup name (childErase name ch) = none := by
  induction ch with
  | nil => simp [childErase, childLookup]
  | cons kc rest ih =>
    obtain ⟨k, c⟩ := kc
    simp only [List.map_cons, List.nodup_cons] at hnd
    by_cases hk : k = name
    · subst hk
      simp only [childErase, if_pos rfl]
      exact childLookup_eq_none_of_not_mem k rest hnd.1
    · simp only [childErase, if_neg hk, childLookup, if_neg hk]
      exact ih hnd.2

theorem childLookup_append (k : String) (ch l : List (String × VNode)) :
    childLookup k (ch ++ l) =
      (match childLookup k ch with
       | some c => some c
       | none => childLookup k l) := by
  induction ch with
  | nil => simp [childLookup]
  | cons kc rest ih =>
    obtain ⟨k', c⟩ := kc
    by_cases hk : k' = k <;> simp [childLookup, hk, ih]

/-! ## Lemmas about tree lookup, update and resolution -/

theorem lookupNode_append (t : VNode) (p q : List String) :
    lookupNode t (p ++ q) = (lookupNode t p).bind (fun n => lookupNode n q) := by
  induction p generalizing t with
  | nil => simp [lookupNode]
  | cons a p' ih =>
    cases t with
    | file fd => simp [lookupNode]
    | dir ch pol md =>
      simp only [List.cons_append, lookupNode]
      cases childLookup a ch with
      | none => simp
      | some c => simpa using ih c

theorem updateAt_append (g : VNode → VNode) (p q : List String) (t : VNode) :
    updateAt g (p ++ q) t = updateAt (updateAt g q) p t := by
  induction p generalizing t with
  | nil => simp [updateAt]
  | cons a p' ih =>
    cases t with
    | file fd => simp [updateAt]
    | dir ch pol md =>
      simp only [List.cons_append, updateAt]
      congr 1
      exact childMap_congr a _ _ ch (fun x => ih x)

theorem lookupNode_updateAt (g : VNode → VNode) (p : List String) (t : VNode) :
    lookupNode (updateAt g p t) p = (lookupNode t p).map g := by
  induction p generalizing t with
  | nil => simp [lookupNode, updateAt]
  | cons a p' ih =>
    cases t with
    | file fd => simp [lookupNode, updateAt]
    | dir ch pol md =>
      simp only [updateAt, lookupNode, childLookup_childMap_self]
      cases h : childLookup a ch with
      | none => simp
      | some c => simpa using ih c

theorem updateAt_of_lookup_none (g : VNode → VNode) (p : List String) (t : VNode)
    (h : lookupNode t p = none) : updateAt g p t = t := by
  induction p generalizing t with
  | nil => simp [lookupNode] at h
  | cons a p' ih =>
    cases t with
    | file fd => simp [updateAt]
    | dir ch pol md =>
      simp only [lookupNode] at h
      simp only [updateAt, VNode.dir.injEq, and_true]
      cases hc : childLookup a ch with
      | none => rw [childMap_of_lookup_none a _ ch hc]
      | some c =>
        rw [hc] at h
        calc childMap a (updateAt g p') ch
            = childMap a (fun _ => updateAt g p' c) ch := childMap_eq_const a _ ch c hc
          _ = childMap a (fun _ => c) ch := by rw [ih c h]
          _ = ch := childMap_const_of_lookup a c ch hc

theorem lookupNode_updateAt_below (g : VNode → VNode) (p q : List String) (t n : VNode)
    (h : lookupNode t p = some n) :
    lookupNode (updateAt g p t) (p ++ q) = lookupNode (g n) q := by
  rw [lookupNode_append, lookupNode_updateAt, h]
  rfl

theorem lookupNode_updateAt_above (g : VNode → VNode) (q r : List String) (t : VNode) :
    lookupNode (updateAt g (q ++ r) t) q = (lookupNode t q).map (updateAt g r) := by
  rw [updateAt_append, lookupNode_updateAt]

theorem lookupNode_updateAt_divergent (g : VNode → VNode) (p q : List String) (t : VNode)
    (h1 : ¬ p <+: q) (h2 : ¬ q <+: p) :
    lookupNode (updateAt g p t) q = lookupNode t q := by
  induction p generalizing q t with
  | nil => exact absurd (List.nil_prefix) h1
  | cons a p' ih =>
    cases q with
    | nil => exact absurd (List.nil_prefix) h2
    | cons b q' =>
      cases t with
      | file fd => simp [updateAt]
      | dir ch pol md =>
        simp only [updateAt, lookupNode]
        by_cases hab : a = b
        · subst hab
          rw [childLookup_childMap_self]
          cases hc : childLookup a ch with
          | none => simp
          | some c =>
            simp only [Option.map_some]
            have h1' : ¬ p' <+: q' := fun h => h1 (List.cons_prefix_cons.mpr ⟨rfl, h⟩)
            have h2' : ¬ q' <+: p' := fun h => h2 (List.cons_prefix_cons.mpr ⟨rfl, h⟩)
            exact ih q' c h1' h2'
        · rw [childLookup_childMap_ne b a (Ne.symm hab)]

theorem updateAt_dir_shape (g : VNode → VNode) (r : List String) (hr : r ≠ [])
    (ch : List (String × VNode)) (pol : NodePolicy) (md : List (String × String)) :
    ∃ ch', updateAt g r (.dir ch pol md) = .dir ch' pol md := by
  cases r with
  | nil => exact absurd rfl hr
  | cons x r' => exact ⟨_, rfl⟩

theorem resolveNode_ok_iff (t : VNode) (p : List String) (n : VNode) :
    resolveNode t p = .ok n ↔ lookupNode t p = some n := by
  induction p generalizing t with
  | nil => simp [resolveNode, lookupNode]
  | cons a p' ih =>
    cases t with
    | file fd => simp [resolveNode, lookupNode]
    | dir ch pol md =>
      cases hc : childLookup a ch with
      | none => simp [resolveNode, lookupNode, hc]
      | some c => simpa [resolveNode, lookupNode, hc] using ih c

theorem resolveNode_error_kinds (t : VNode) (p : List String) (e : VfsError)
    (h : resolveNode t p = .error e) : e = .notFound ∨ e = .invalidOp := by
  induction p generalizing t with
  | nil => simp [resolveNode] at h
  | cons a p' ih =>
    cases t with
    | file fd =>
      simp only [resolveNode, Except.error.injEq] at h
      exact Or.inr h.symm
    | dir ch pol md =>
      simp only [resolveNode] at h
      cases hc : childLookup a ch with
      | none =>
        rw [hc] at h
        simp only [Except.error.injEq] at h
        exact Or.inl h.symm
      | some c =>
        rw [hc] at h
        exact ih c h

theorem resolveNode_error_of_lookup_none (t : VNode) (p : List String)
    (h : lookupNode t p = none) : ∃ e, resolveNode t p = .error e := by
  cases hr : resolveNode t p with
  | ok n => rw [(resolveNode_ok_iff t p n).mp hr] at h; cases h
  | error e => exact ⟨e, rfl⟩

/-! ## Lemmas about directory resolution and `_ensure_file` -/

theorem lookupNode_dir_single (name : String) (ch : List (String × VNode))
    (pol : NodePolicy) (md : List (String × String)) :
    lookupNode (.dir ch pol md) [name] = childLookup name ch := by
  simp only [lookupNode]
  cases childLookup name ch <;> rfl

theorem resolveDirAux_of_lookup_dir (b : Bool) (p : List String) (t : VNode)
    (ch : List (String × VNode)) (pol : NodePolicy) (md : List (String × String))
    (h : lookupNode t p = some (.dir ch pol md)) :
    resolveDirAux b p t = (t, none) := by
  induction p generalizing t with
  | nil => rfl
  | cons a p' ih =>
    cases t with
    | file fd => simp [lookupNode] at h
    | dir ch0 pol0 md0 =>
      simp only [lookupNode] at h
      cases hc : childLookup a ch0 with
      | none => rw [hc] at h; cases h
      | some c =>
        rw [hc] at h
        cases c with
        | file fd =>
          cases p' with
          | nil => simp [lookupNode] at h
          | cons x xs => simp [lookupNode] at h
        | dir ch2 p2 m2 =>
          simp only [resolveDirAux, hc, ih (VNode.dir ch2 p2 m2) h,
            childMap_const_of_lookup a _ ch0 hc]

theorem ensureFile_of_getFileAt (b : Bool) (t : VNode) (p : List String) (fd : FileData)
    (hp : p ≠ []) (h : getFileAt t p = some fd) :
    ensureFile b t p = (t, none) := by
  obtain ⟨q, name, rfl⟩ : ∃ q name, p = q ++ [name] :=
    ⟨p.dropLast, p.getLast hp, (List.dropLast_append_getLast hp).symm⟩
  have hl : lookupNode t (q ++ [name]) = some (.file fd) := by
    unfold getFileAt at h
    cases hx : lookupNode t (q ++ [name]) with
    | none => rw [hx] at h; cases h
    | some n =>
      rw [hx] at h
      cases n with
      | file fd' => cases h; rfl
      | dir ch pol md => cases h
  rw [lookupNode_append] at hl
  cases hq : lookupNode t q with
  | none => rw [hq] at hl; cases hl
  | some m =>
    rw [hq] at hl
    cases m with
    | file fd0 => simp [lookupNode] at hl
    | dir chq polq mdq =>
      have hcq : childLookup name chq = some (.file fd) := by
        rw [← lookupNode_dir_single name chq polq mdq]
        simpa using hl
      simp only [ensureFile, List.getLast?_concat, List.dropLast_concat,
        resolveDirAux_of_lookup_dir b q t chq polq mdq hq, hq, hcq]

/-! ## Lemmas about well-formed trees -/

theorem childrenWfB_lookup (ch : List (String × VNode)) (name : String) (c : VNode)
    (hw : childrenWfB ch = true) (hc : childLookup name ch = some c) : c.wfB = true := by
  induction ch with
  | nil => cases hc
  | cons kc rest ih =>
    obtain ⟨k, c'⟩ := kc
    simp only [childrenWfB, Bool.and_eq_true] at hw
    simp only [childLookup] at hc
    by_cases hk : k = name
    · rw [if_pos hk] at hc; injection hc with h'; rw [← h']; exact hw.1
    · rw [if_neg hk] at hc; exact ih hw.2 hc

theorem wfB_lookup (t : VNode) (p : List String) (n : VNode)
    (hw : t.wfB = true) (h : lookupNode t p = some n) : n.wfB = true := by
  induction p generalizing t with
  | nil =>
    simp only [lookupNode, Option.some.injEq] at h
    rw [← h]; exact hw
  | cons a p' ih =>
    cases t with
    | file fd => simp [lookupNode] at h
    | dir ch pol md =>
      simp only [lookupNode] at h
      cases hc : childLookup a ch with
      | none => rw [hc] at h; cases h
      | some c =>
        rw [hc] at h
        have hcw : c.wfB = true := by
          simp only [VNode.wfB, Bool.and_eq_true] at hw
          exact childrenWfB_lookup ch a c hw.2 hc
        exact ih c hcw h

theorem wfB_dir_nodup (t : VNode) (p : List String) (ch : List (String × VNode))
    (pol : NodePolicy) (md : List (String × String))
    (hw : t.wfB = true) (h : lookupNode t p = some (.dir ch pol md)) :
    (ch.map Prod.fst).Nodup := by
  have hn := wfB_lookup t p _ hw h
  simp only [VNode.wfB, Bool.and_eq_true, decide_eq_true_eq] at hn
  exact hn.1

/-! ## Lemmas about reading and writing files -/

theorem getFileAt_updateFileAt (p : List String) (g : FileData → FileData) (t : VNode) :
    getFileAt (updateFileAt p g t) p = (getFileAt t p).map g := by
  unfold getFileAt updateFileAt
  rw [lookupNode_updateAt]
  cases lookupNode t p with
  | none => rfl
  | some n => cases n <;> rfl

theorem findStorageMount_root_update (vfs : VFS) (r : VNode) (p : List String) :
    VFS.findStorageMount { vfs with root := r } p = vfs.findStorageMount p := rfl

theorem write_file_success (vfs : VFS) (path data : String) (fd : FileData)
    (hp : normalize vfs.cwd path ≠ [])
    (hf : getFileAt vfs.root (normalize vfs.cwd path) = some fd)
    (hw : fd.policy.writable = true) (ha : fd.policy.append_only = false)
    (hm : vfs.findStorageMount (normalize vfs.cwd path) = none) :
    vfs.write_file path data =
      ({ vfs with
          root :=
            updateFileAt (normalize vfs.cwd path)
              (fun f => { f.writeNode data false with version := f.version + 1 })
              vfs.root },
       none) := by
  simp only [VFS.write_file,
    ensureFile_of_getFileAt true vfs.root (normalize vfs.cwd path) fd hp hf,
    hf, NodePolicy.writeOk, hw, ha, VFS.persistStorage,
    findStorageMount_root_update, hm]
  simp

theorem read_file_of_getFileAt (vfs : VFS) (path : String) (fd : FileData)
    (hp : normalize vfs.cwd path ≠ [])
    (hf : getFileAt vfs.root (normalize vfs.cwd path) = some fd)
    (hr : fd.policy.readable = true) :
    vfs.read_file path = .ok fd.read := by
  simp only [VFS.read_file,
    ensureFile_of_getFileAt false vfs.root (normalize vfs.cwd path) fd hp hf, hf, hr]
  simp

/-- A successful plain `write_file` always leaves a file at the written path
whose static content is the written data (with the provider cleared), on
every branch of the facade — including creation and the storage-mount
persist branch. -/
theorem write_file_ok_content (vfs vfs' : VFS) (path data : String)
    (h : vfs.write_file path data = (vfs', none)) :
    vfs'.cwd = vfs.cwd ∧ normalize vfs.cwd path ≠ [] ∧
    ∃ fd', getFileAt vfs'.root (normalize vfs.cwd path) = some fd' ∧
      fd'.content = data ∧ fd'.provider = none := by
  simp only [VFS.write_file] at h
  rcases he : ensureFile true vfs.root (normalize vfs.cwd path) with ⟨root1, err1⟩
  rw [he] at h
  cases err1 with
  | some e => simp at h
  | none =>
    have hpne : normalize vfs.cwd path ≠ [] := by
      intro hnil
      rw [hnil] at he
      simp [ensureFile] at he
    simp only at h
    split at h
    · simp at h
    · rename_i fd hg
      split at h
      · simp at h
      · split at h
        · simp at h
        · unfold VFS.persistStorage at h
          split at h
          · simp only [Prod.mk.injEq] at h
            obtain ⟨h1, _⟩ := h
            refine ⟨by rw [← h1], hpne, ?_⟩
            rw [← h1]
            rw [getFileAt_updateFileAt, hg]
            exact ⟨_, rfl, rfl, rfl⟩
          · split at h <;> (simp only [] at h; split at h)
            · simp only [Prod.mk.injEq] at h
              obtain ⟨h1, _⟩ := h
              refine ⟨by rw [← h1], hpne, ?_⟩
              rw [← h1]
              rw [getFileAt_updateFileAt, hg]
              exact ⟨_, rfl, rfl, rfl⟩
            · simp at h
            · simp only [Prod.mk.injEq] at h
              obtain ⟨h1, _⟩ := h
              refine ⟨by rw [← h1], hpne, ?_⟩
              rw [← h1]
              rw [getFileAt_updateFileAt, hg]
              exact ⟨_, rfl, rfl, rfl⟩
            · simp at h

/-- One successful write through the facade on a writable, non-append-only,
unmounted file bumps the version by exactly one and stores the data. -/
theorem write_file_step (vfs : VFS) (path data : String) (fd : FileData)
    (hp : normalize vfs.cwd path ≠ [])
    (hf : getFileAt vfs.root (normalize vfs.cwd path) = some fd)
    (hw : fd.policy.writable = true) (ha : fd.policy.append_only = false)
    (hm : vfs.findStorageMount (normalize vfs.cwd path) = none) :
    (vfs.write_file path data).2 = none ∧
    (vfs.write_file path data).1.cwd = vfs.cwd ∧
    (vfs.write_file path data).1.mounts = vfs.mounts ∧
    getFileAt (vfs.write_file path data).1.root (normalize vfs.cwd path) =
      some { fd.writeNode data false with version := fd.version + 1 } := by
  rw [write_file_success vfs path data fd hp hf hw ha hm]
  refine ⟨rfl, rfl, rfl, ?_⟩
  rw [getFileAt_updateFileAt, hf]
  rfl

/-- The iterated-write invariant behind the `version after N writes` part of
the verified property C2. -/
theorem iterWrite_version (path data : String) :
    ∀ (n : Nat) (vfs : VFS) (fd : FileData),
    normalize vfs.cwd path ≠ [] →
    getFileAt vfs.root (normalize vfs.cwd path) = some fd →
    fd.policy.writable = true → fd.policy.append_only = false →
    vfs.findStorageMount (normalize vfs.cwd path) = none →
    (iterWrite path data n vfs).cwd = vfs.cwd ∧
    (getFileAt (iterWrite path data n vfs).root (normalize vfs.cwd path)).map
      (fun f => f.version) = some (fd.version + n) := by
  intro n
  induction n with
  | zero =>
    intro vfs fd _ hf _ _ _
    simp [iterWrite, hf]
  | succ n ih =>
    intro vfs fd hp hf hw ha hm
    obtain ⟨_, hcwd, hmounts, hpost⟩ := write_file_step vfs path data fd hp hf hw ha hm
    have hp1 : normalize (vfs.write_file path data).1.cwd path ≠ [] := by
      rw [hcwd]; exact hp
    have hf1 : getFileAt (vfs.write_file path data).1.root
        (normalize (vfs.write_file path data).1.cwd path) =
        some { fd.writeNode data false with version := fd.version + 1 } := by
      rw [hcwd]; exact hpost
    have hm1 : (vfs.write_file path data).1.findStorageMount
        (normalize (vfs.write_file path data).1.cwd path) = none := by
      rw [hcwd]
      unfold VFS.findStorageMount at hm ⊢
      rw [hmounts]
      exact hm
    obtain ⟨ihcwd, ihver⟩ := ih (vfs.write_file path data).1 _ hp1 hf1 hw ha hm1
    constructor
    · show (iterWrite path data n (vfs.write_file path data).1).cwd = vfs.cwd
      rw [ihcwd, hcwd]
    · show (getFileAt (iterWrite path data n (vfs.write_file path data).1).root
        (normalize vfs.cwd path)).map (fun f => f.version) = some (fd.version + (n + 1))
      rw [← hcwd]
      rw [ihver]
      congr 1
      show fd.version + 1 + n = fd.version + (n + 1)
      omega

theorem getFileAt_eq_some_iff (t : VNode) (p : List String) (fd : FileData) :
    getFileAt t p = some fd ↔ lookupNode t p = some (.file fd) := by
  unfold getFileAt
  cases h : lookupNode t p with
  | none => simp
  | some n => cases n <;> simp

theorem dropLast_append_of_getLast? {α : Type} (l : List α) (a : α)
    (h : l.getLast? = some a) : l.dropLast ++ [a] = l := by
  have hne : l ≠ [] := by
    intro h'
    rw [h'] at h
    cases h
  have ha : l.getLast hne = a := by
    rw [List.getLast?_eq_getLast l hne, Option.some.injEq] at h
    exact h
  rw [← ha]
  exact List.dropLast_append_getLast hne

/-! ## Frame lemmas for detaching and attaching children -/

theorem length_append_singleton_not_prefix {α : Type} (l : List α) (a : α) :
    ¬ (l ++ [a]) <+: l := by
  intro h
  have := h.length_le
  simp at this

theorem childLookup_childErase_none (dname srcName : String)
    (ch : List (String × VNode)) (h : childLookup dname ch = none) :
    childLookup dname (childErase srcName ch) = none := by
  induction ch with
  | nil => exact h
  | cons kc rest ih =>
    obtain ⟨k, c⟩ := kc
    simp only [childLookup] at h
    by_cases hk : k = dname
    · rw [if_pos hk] at h; cases h
    · rw [if_neg hk] at h
      simp only [childErase]
      by_cases hs : k = srcName
      · rw [if_pos hs]; exact h
      · rw [if_neg hs]
        simp only [childLookup, if_neg hk]
        exact ih h

theorem lookup_prefix_isSome (t : VNode) (r s : List String) (n : VNode)
    (h : lookupNode t (r ++ s) = some n) : ∃ m, lookupNode t r = some m := by
  rw [lookupNode_append] at h
  cases hr : lookupNode t r with
  | none => rw [hr] at h; simp at h
  | some m => exact ⟨m, rfl⟩

/-- Detaching the child `srcName` of the directory at `p` leaves any
directory at a path `q` that does not pass through (or sit at) the detached
node resolvable with the same policy and metadata, and cannot create child
bindings that were absent. -/
theorem removeChild_preserves_dir (t : VNode) (p q : List String) (srcName : String)
    (pch dch : List (String × VNode)) (ppol dpol : NodePolicy)
    (pmd dmd : List (String × String))
    (hp : lookupNode t p = some (.dir pch ppol pmd))
    (hq : lookupNode t q = some (.dir dch dpol dmd))
    (hnot : ¬ (p ++ [srcName]) <+: q) :
    ∃ dch', lookupNode (removeChildAt p srcName t) q = some (.dir dch' dpol dmd) ∧
      ∀ dname, childLookup dname dch = none → childLookup dname dch' = none := by
  by_cases h1 : p <+: q
  · obtain ⟨s, rfl⟩ := h1
    cases s with
    | nil =>
      -- q = p: the erased directory itself
      rw [List.append_nil] at hq ⊢
      rw [hp] at hq
      injection hq with hq'
      injection hq' with e1 e2 e3
      subst e1; subst e2; subst e3
      refine ⟨childErase srcName pch, ?_, ?_⟩
      · unfold removeChildAt
        rw [lookupNode_updateAt, hp]
        rfl
      · intro dname hd
        exact childLookup_childErase_none dname srcName pch hd
    | cons x s' =>
      have hx : x ≠ srcName := by
        intro hxe
        subst hxe
        exact hnot ⟨s', by simp⟩
      refine ⟨dch, ?_, fun _ h => h⟩
      unfold removeChildAt
      rw [lookupNode_updateAt_below _ _ _ _ _ hp]
      have horig : lookupNode (.dir pch ppol pmd) (x :: s') = some (.dir dch dpol dmd) := by
        have h' := hq
        rw [lookupNode_append, hp] at h'
        exact h'
      show lookupNode (.dir (childErase srcName pch) ppol pmd) (x :: s') = _
      simp only [lookupNode, childLookup_childErase_ne x srcName hx]
      simp only [lookupNode] at horig
      exact horig
  · by_cases h2 : q <+: p
    · -- q is a strict ancestor of the erased directory
      obtain ⟨r, rfl⟩ := h2
      unfold removeChildAt
      rw [lookupNode_updateAt_above, hq]
      cases r with
      | nil => exact absurd ⟨[], by simp⟩ h1
      | cons x r' =>
        refine ⟨childMap x (updateAt (fun n => match n with
          | .dir ch pol md => .dir (childErase srcName ch) pol md
          | other => other) r') dch, rfl, ?_⟩
        intro dname hd
        by_cases hx : dname = x
        · subst hx
          rw [childLookup_childMap_self, hd]
          rfl
        · rw [childLookup_childMap_ne dname x hx]
          exact hd
    · refine ⟨dch, ?_, fun _ h => h⟩
      unfold removeChildAt
      rw [lookupNode_updateAt_divergent _ _ _ _ h1 h2]
      exact hq

/-- After detaching `srcName` from the directory at `p`, the path
`p ++ [srcName]` no longer resolves (given unique child names). -/
theorem lookup_removeChild_src (t : VNode) (p : List String) (srcName : String)
    (pch : List (String × VNode)) (ppol : NodePolicy) (pmd : List (String × String))
    (hp : lookupNode t p = some (.dir pch ppol pmd))
    (hnd : (pch.map Prod.fst).Nodup) :
    lookupNode (removeChildAt p srcName t) (p ++ [srcName]) = none := by
  unfold removeChildAt
  rw [lookupNode_updateAt_below _ _ _ _ _ hp]
  show lookupNode (.dir (childErase srcName pch) ppol pmd) [srcName] = none
  rw [lookupNode_dir_single, childLookup_childErase_self srcName pch hnd]

/-- Attaching a child under the directory at `q` makes `q ++ [dname]`
resolve to the attached node, when the name was free. -/
theorem lookup_addChildAt_self (t : VNode) (q : List String) (dname : String) (v : VNode)
    (ch : List (String × VNode)) (pol : NodePolicy) (md : List (String × String))
    (hq : lookupNode t q = some (.dir ch pol md))
    (hcl : childLookup dname ch = none) :
    lookupNode (addChildAt q dname v t) (q ++ [dname]) = some v := by
  unfold addChildAt
  rw [lookupNode_updateAt_below _ _ _ _ _ hq]
  show lookupNode (.dir (ch ++ [(dname, v)]) pol md) [dname] = some v
  rw [lookupNode_dir_single, childLookup_append, hcl]
  simp [childLookup]

/-- Attaching a child under the directory at `q` cannot make a path that
did not resolve resolve, except below the attached node itself. -/
theorem lookup_addChild_none (t : VNode) (q : List String) (dname : String) (v : VNode)
    (ch : List (String × VNode)) (pol : NodePolicy) (md : List (String × String))
    (r : List String)
    (hq : lookupNode t q = some (.dir ch pol md))
    (hr : lookupNode t r = none)
    (hnp : ¬ (q ++ [dname]) <+: r) :
    lookupNode (addChildAt q dname v t) r = none := by
  by_cases h1 : q <+: r
  · obtain ⟨s, rfl⟩ := h1
    cases s with
    | nil =>
      rw [List.append_nil] at hr
      rw [hq] at hr
      cases hr
    | cons x s' =>
      have hx : x ≠ dname := by
        intro hxe
        subst hxe
        exact hnp ⟨s', by simp⟩
      unfold addChildAt
      rw [lookupNode_updateAt_below _ _ _ _ _ hq]
      have horig : lookupNode (.dir ch pol md) (x :: s') = none := by
        have h' := hr
        rw [lookupNode_append, hq] at h'
        exact h'
      show lookupNode (.dir (ch ++ [(dname, v)]) pol md) (x :: s') = none
      simp only [lookupNode, childLookup_append]
      simp only [lookupNode] at horig
      cases hc : childLookup x ch with
      | some c =>
        simp only [hc] at horig ⊢
        exact horig
      | none =>
        simp only [hc]
        simp [childLookup, Ne.symm hx]
  · by_cases h2 : r <+: q
    · obtain ⟨s, rfl⟩ := h2
      obtain ⟨m, hm⟩ := lookup_prefix_isSome t r s _ hq
      rw [hm] at hr
      cases hr
    · unfold addChildAt
      rw [lookupNode_updateAt_divergent _ _ _ _ h1 h2]
      exact hr

/-! ## Lemmas about the pipeline segment loop -/

/-- If every success-continuation of the tail `l₁` is also one of `l₂`,
the segment loop on `spec :: l₁` reaching `(st', .ok r)` implies the loop
on `spec :: l₂` reaches the same pair: the head segment is processed
identically and the tails are only consulted on a zero exit. -/
theorem execSegments_cons_congr {σ : Type} (cfg : ShellCfg σ)
    (spec : CommandSpec) (l₁ l₂ : List CommandSpec)
    (st' : ShellState σ) (r : CommandResult)
    (hcont : ∀ (st2 : ShellState σ) (p2 : String) (c2 : List String),
      execSegments cfg st2 p2 c2 l₁ = (st', .ok r) →
      execSegments cfg st2 p2 c2 l₂ = (st', .ok r)) :
    ∀ (st : ShellState σ) (p : String) (c : List String),
      execSegments cfg st p c (spec :: l₁) = (st', .ok r) →
      execSegments cfg st p c (spec :: l₂) = (st', .ok r) := by
  intro st p c h
  simp only [execSegments] at h ⊢
  cases hname : spec.name with
  | none =>
    simp only [hname] at h ⊢
    exact h
  | some rawName =>
    simp only [hname] at h ⊢
    rcases hstdin : segmentStdin cfg st.inner (segmentEnv cfg st.env spec) spec p
      with ⟨inner1, res⟩
    cases res with
    | error e =>
      simp only [hstdin] at h
      cases h
    | ok stdinData =>
      simp only [hstdin] at h ⊢
      rcases hrun : cfg.runCommand inner1
          (cfg.expandVars (segmentEnv cfg st.env spec) rawName)
          (cfg.expandArgs st.inner (segmentEnv cfg st.env spec)
            (cfg.expandVars (segmentEnv cfg st.env spec) rawName) spec.args)
          stdinData (segmentEnv cfg st.env spec)
        with ⟨inner2, result⟩
      simp only [hrun] at h ⊢
      by_cases hz : result.exit_code ≠ 0
      · rw [if_pos hz] at h ⊢
        exact h
      · rw [if_neg hz] at h ⊢
        cases hout : spec.stdout with
        | some op =>
          simp only [hout] at h ⊢
          rcases hw : cfg.writeToPath inner2
              (cfg.expandVars (segmentEnv cfg st.env spec) op) result.stdout spec.append
            with ⟨inner3, werr⟩
          simp only [hw] at h ⊢
          cases werr with
          | some e => cases h
          | none => exact hcont _ _ _ h
        | none =>
          simp only [hout] at h ⊢
          exact hcont _ _ _ h

/-- Segments after a failing segment are never executed: extending a
pipeline past a segment at which the loop stopped with a non-zero exit
does not change the loop's result (with no output limit installed, so the
stop cannot be a limit rewrite of a successful run). -/
theorem execSegments_append_fail {σ : Type} (cfg : ShellCfg σ)
    (hmax : cfg.max_output_bytes = none) :
    ∀ (pre : List CommandSpec) (spec : CommandSpec) (rest : List CommandSpec)
      (st : ShellState σ) (stdoutPipe : String) (chunks : List String)
      (st' : ShellState σ) (r : CommandResult),
      execSegments cfg st stdoutPipe chunks (pre ++ [spec]) = (st', .ok r) →
      r.exit_code ≠ 0 →
      execSegments cfg st stdoutPipe chunks (pre ++ spec :: rest) = (st', .ok r) := by
  intro pre
  induction pre with
  | nil =>
    intro spec rest st stdoutPipe chunks st' r h hr
    refine execSegments_cons_congr cfg spec [] rest st' r ?_ st stdoutPipe chunks h
    intro st2 p2 c2 h2
    simp only [execSegments, hmax, enforceOutputLimit] at h2
    rw [Prod.mk.injEq] at h2
    have h4 := Except.ok.inj h2.2
    exact absurd (by rw [← h4]) hr
  | cons q pre' ih =>
    intro spec rest st stdoutPipe chunks st' r h hr
    exact execSegments_cons_congr cfg q (pre' ++ [spec]) (pre' ++ spec :: rest) st' r
      (fun st2 p2 c2 h2 => ih spec rest st2 p2 c2 st' r h2 hr) st stdoutPipe chunks h

/-! ## The verified properties -/

/-- **C1.**  The claim: a write through the facade on a storage-backed file
that fails with a version conflict — whether from a stale caller-supplied
`expectedVersion` or from an adapter rejection — leaves the file's
in-memory content *and* version at their pre-write values.  The code rolls
back only the version on the adapter-rejection branch (vfs.py lines
224-234): replaying
`tests/test_adapters.py::test_storage_adapter_conflict_preserves_cached_state`
through the embedding, the conflicting write raises a storage conflict and
restores the pre-write version 1, but the in-memory content afterwards is
the newly written `"local-two"`, not the pre-write `"local-one"` the
repository's own test asserts — so the claim (and the test) state the
intended behaviour and the code diverges from it. -/
theorem claim_C1_storage_conflict_keeps_new_content :
    conflictWrite.2 = some .invalidOp ∧
    conflictState2.read_file "/data/conflict.txt" = .ok "local-one" ∧
    conflictState2.get_version "/data/conflict.txt" = .ok 1 ∧
    conflictWrite.1.get_version "/data/conflict.txt" = .ok 1 ∧
    conflictWrite.1.read_file "/data/conflict.txt" = .ok "local-two" ∧
    conflictWrite.1.read_file "/data/conflict.txt" ≠
      conflictState2.read_file "/data/conflict.txt" := by
  refine ⟨rfl, rfl, rfl, rfl, rfl, ?_⟩
  intro hcontra
  have h1 : conflictWrite.1.read_file "/data/conflict.txt" = .ok "local-two" := rfl
  have h2 : conflictState2.read_file "/data/conflict.txt" = .ok "local-one" := rfl
  rw [h1, h2] at hcontra
  have : ("local-two" : String) = "local-one" := Except.ok.inj hcontra
  simp at this

/-- **C2.**  For every path, writing content and then reading that path
returns the written content (whenever the write succeeds and the resulting
file is readable — on every branch of the facade, including creation and
the storage-persist branch); and a fresh file's version equals `N` after
`N` successful writes: a file at version 0 that is writable, not
append-only and not governed by a storage mount has version exactly `N`
after `N` facade writes, each successful write incrementing the version by
exactly one. -/
theorem claim_C2_write_read_roundtrip_and_version_count :
    (∀ (vfs vfs' : VFS) (path data : String),
      vfs.write_file path data = (vfs', none) →
      ∃ fd', getFileAt vfs'.root (normalize vfs.cwd path) = some fd' ∧
        fd'.read = data ∧
        (fd'.policy.readable = true → vfs'.read_file path = .ok data)) ∧
    (∀ (vfs : VFS) (path data : String) (fd : FileData),
      normalize vfs.cwd path ≠ [] →
      getFileAt vfs.root (normalize vfs.cwd path) = some fd →
      fd.policy.writable = true → fd.policy.append_only = false →
      vfs.findStorageMount (normalize vfs.cwd path) = none →
      fd.version = 0 →
      ∀ n : Nat, (getFileAt (iterWrite path data n vfs).root
        (normalize vfs.cwd path)).map (fun f => f.version) = some n) := by
  constructor
  · intro vfs vfs' path data h
    obtain ⟨hcwd, hpne, fd', hfd, hcont, hprov⟩ := write_file_ok_content vfs vfs' path data h
    refine ⟨fd', hfd, ?_, ?_⟩
    · simp [FileData.read, hprov, hcont]
    · intro hr
      have hread := read_file_of_getFileAt vfs' path fd'
        (by rw [hcwd]; exact hpne) (by rw [hcwd]; exact hfd) hr
      rw [hread]
      simp [FileData.read, hprov, hcont]
  · intro vfs path data fd hp hf hw ha hm h0 n
    have hv := (iterWrite_version path data n vfs fd hp hf hw ha hm).2
    rw [hv, h0]
    simp

/-- **C10.**  The query operations `exists`, `is_dir` and `is_file` never
raise: they are total boolean functions, and whenever path resolution fails
— which can only be with `NodeNotFound` or `InvalidOperation`, the two
kinds the `except` clause catches, including the `InvalidOperation` raised
when resolution steps through a node that is a file — all three return
`false`. -/
theorem claim_C10_query_ops_never_raise :
    ∀ (vfs : VFS) (path : String) (e : VfsError),
      resolveNode vfs.root (normalize vfs.cwd path) = .error e →
      (e = .notFound ∨ e = .invalidOp) ∧
      vfs.exists path = false ∧ vfs.is_dir path = false ∧ vfs.is_file path = false := by
  intro vfs path e h
  exact ⟨resolveNode_error_kinds _ _ e h,
    by simp [VFS.exists, h], by simp [VFS.is_dir, h], by simp [VFS.is_file, h]⟩

/-- Witness for C10: resolving `/a.txt/x` steps through the file `a.txt`,
failing with `InvalidOperation`, and all three queries return `false`. -/
theorem claim_C10_witness :
    (VfsError.invalidOp = .notFound ∨ VfsError.invalidOp = .invalidOp) ∧
    freshFileState.exists "/a.txt/x" = false ∧
    freshFileState.is_dir "/a.txt/x" = false ∧
    freshFileState.is_file "/a.txt/x" = false :=
  claim_C10_query_ops_never_raise freshFileState "/a.txt/x" .invalidOp rfl

/-- **C6.**  If a node's policy declares a non-empty principal set, a view
whose own principal set is absent or disjoint from it is denied by
`allows`, whatever the view's classification allow-set; and for a policy
with no principals the view admits the node exactly unless it restricts
classifications and the node's classification is not among them. -/
theorem claim_C6_principals_gate_visibility :
    ∀ (p : NodePolicy) (v : VisibilityView),
      (p.principals ≠ [] →
        (match v.principals with
         | none => True
         | some vp => ∀ x ∈ p.principals, x ∉ vp) →
        v.allows p = false) ∧
      (p.principals = [] →
        v.allows p = (match v.classifications with
                      | none => true
                      | some cs => cs.contains p.classification)) := by
  intro p v
  constructor
  · intro hne hdis
    unfold VisibilityView.allows
    rw [if_pos hne]
    cases hv : v.principals with
    | none => rfl
    | some vp =>
      rw [hv] at hdis
      apply List.any_eq_false.mpr
      intro x hx
      simpa using hdis x hx
  · intro he
    unfold VisibilityView.allows
    rw [if_neg (by simp [he])]

/-- Witness for C6: policy principals `{"bob"}` against a view with a
classification allow-set but no principal set is denied; the same view
admits a default (principal-free, `"public"`) policy. -/
theorem claim_C6_witness :
    ({ classifications := some ["public"] } : VisibilityView).allows
      { principals := ["bob"] } = false ∧
    ({ classifications := some ["public"] } : VisibilityView).allows {} = true := by
  constructor
  · exact (claim_C6_principals_gate_visibility { principals := ["bob"] }
      { classifications := some ["public"] }).1 (by decide) trivial
  · exact ((claim_C6_principals_gate_visibility {}
      { classifications := some ["public"] }).2 rfl).trans (by decide)

/-- **C9.**  Indexing files with contents `"Hello\nworld"` and
`"HELLO\nthere"` and querying the literal `"hello"` case-insensitively
returns a match for line 1 of both files, each reported as (path, 1-based
line number, line text); after removing the first file from the index the
same query returns only the remaining file's match.  (`reMatch` abstracts
the regular-expression matcher, which a literal query never invokes.) -/
theorem claim_C9_case_insensitive_search_and_removal :
    ∀ reMatch : String → String → Bool,
      ((FullTextIndex.index_file (FullTextIndex.index_file {} ["a.txt"] "Hello\nworld")
          ["b.txt"] "HELLO\nthere").search reMatch
        { query := "hello", ignore_case := true } =
        [⟨["a.txt"], 1, "Hello"⟩, ⟨["b.txt"], 1, "HELLO"⟩]) ∧
      (((FullTextIndex.index_file (FullTextIndex.index_file {} ["a.txt"] "Hello\nworld")
          ["b.txt"] "HELLO\nthere").remove_file ["a.txt"]).search reMatch
        { query := "hello", ignore_case := true } =
        [⟨["b.txt"], 1, "HELLO"⟩]) := by
  intro reMatch
  exact ⟨rfl, rfl⟩

/-- When the first (path-prefix) check of `_ensure_visible_path` does not
raise, the view either has no path prefixes or the normalized path overlaps
one of them. -/
theorem visible_step1_pass (view : VisibilityView) (n : List String)
    (hppc : ¬ (match view.path_prefixes with
               | some ps => !prefixOverlap n ps
               | none => false) = true) :
    (match view.path_prefixes with
     | none => (true : Bool)
     | some ps => prefixOverlap n ps) = true := by
  cases hpf : view.path_prefixes with
  | none => rfl
  | some ps =>
    rw [hpf] at hppc
    simpa using hppc

/-- When the view restricts path prefixes and the normalized path does not
overlap any of them, the first check of `_ensure_visible_path` raises. -/
theorem visible_step1_fail (view : VisibilityView) (n : List String)
    (hppc : (match view.path_prefixes with
             | some ps => !prefixOverlap n ps
             | none => false) = true) :
    ¬ ((match view.path_prefixes with
        | none => (true : Bool)
        | some ps => prefixOverlap n ps) = true) := by
  cases hpf : view.path_prefixes with
  | none => rw [hpf] at hppc; cases hppc
  | some ps =>
    rw [hpf] at hppc
    simp only [Bool.not_eq_true'] at hppc
    simp [hppc]

/-- **C7.**  When a view restricts metadata (a non-empty filter map), a
*file* passes `_ensure_visible_path` exactly when the path-prefix check,
the policy-level `allows` check and the exact-match metadata check all
pass; a *directory* passes exactly when the path-prefix and `allows`
checks pass — the metadata check is not applied to directories, so
directories are never hidden by metadata filters alone at this layer
(inside `allows_node` itself the metadata check applies to every node). -/
theorem claim_C7_metadata_filters_exempt_directories :
    ∀ (view : VisibilityView) (vfs : VFS) (path : String) (fs : List (String × String)),
      view.metadata_filters = some fs → fs ≠ [] →
      (∀ (ch : List (String × VNode)) (pol : NodePolicy) (md : List (String × String)),
        resolveNode vfs.root (normalize vfs.cwd path) = .ok (.dir ch pol md) →
        (ensureVisiblePath view vfs path = none ↔
          ((match view.path_prefixes with
            | none => (true : Bool)
            | some ps => prefixOverlap (normalize vfs.cwd path) ps) = true ∧
           view.allows pol = true))) ∧
      (∀ fd : FileData,
        resolveNode vfs.root (normalize vfs.cwd path) = .ok (.file fd) →
        (ensureVisiblePath view vfs path = none ↔
          ((match view.path_prefixes with
            | none => (true : Bool)
            | some ps => prefixOverlap (normalize vfs.cwd path) ps) = true ∧
           view.allows fd.policy = true ∧
           fs.all (fun kv => assocLookup kv.1 fd.metadata == some kv.2) = true))) := by
  intro view vfs path fs hmf hfs
  have hmt : view.metadataFiltersTruthy = true := by
    unfold VisibilityView.metadataFiltersTruthy
    rw [hmf]
    simpa using hfs
  constructor
  · intro ch pol md hres
    simp only [ensureVisiblePath]
    by_cases hppc : (match view.path_prefixes with
        | some ps => !prefixOverlap (normalize vfs.cwd path) ps
        | none => false) = true
    · rw [if_pos hppc]
      constructor
      · intro h; cases h
      · rintro ⟨h1, -⟩
        exact absurd h1 (visible_step1_fail view _ hppc)
    · rw [if_neg hppc]
      simp only [hres]
      by_cases hal : view.allows pol = true
      · rw [if_neg (by simp [VNode.policyOf, hal])]
        rw [if_pos (by simp [VNode.isDir, hmt])]
        constructor
        · intro _
          exact ⟨visible_step1_pass view _ hppc, hal⟩
        · intro _; rfl
      · rw [if_pos (by simp [VNode.policyOf]; simpa using hal)]
        constructor
        · intro h; cases h
        · rintro ⟨-, h2⟩; exact absurd h2 hal
  · intro fd hres
    simp only [ensureVisiblePath]
    by_cases hppc : (match view.path_prefixes with
        | some ps => !prefixOverlap (normalize vfs.cwd path) ps
        | none => false) = true
    · rw [if_pos hppc]
      constructor
      · intro h; cases h
      · rintro ⟨h1, -⟩
        exact absurd h1 (visible_step1_fail view _ hppc)
    · rw [if_neg hppc]
      simp only [hres]
      by_cases hal : view.allows fd.policy = true
      · rw [if_neg (by simp [VNode.policyOf, hal])]
        rw [if_neg (by simp [VNode.isDir])]
        have hnode : view.allowsNode (VNode.policyOf (.file fd))
            (normalize vfs.cwd path) (VNode.metadataOf (.file fd)) =
            fs.all (fun kv => assocLookup kv.1 fd.metadata == some kv.2) := by
          unfold VisibilityView.allowsNode
          simp only [VNode.policyOf, VNode.metadataOf, hal, hmf]
          rw [visible_step1_pass view _ hppc]
          simp
        by_cases hmd : fs.all (fun kv => assocLookup kv.1 fd.metadata == some kv.2) = true
        · rw [if_neg (by rw [hnode, hmd]; simp)]
          constructor
          · intro _
            exact ⟨visible_step1_pass view _ hppc, hal, hmd⟩
          · intro _; rfl
        · rw [if_pos (by rw [hnode]; simpa using hmd)]
          constructor
          · intro h; cases h
          · rintro ⟨-, -, h3⟩; exact absurd h3 hmd
      · rw [if_pos (by simp [VNode.policyOf]; simpa using hal)]
        constructor
        · intro h; cases h
        · rintro ⟨-, h2, -⟩; exact absurd h2 hal

/-- Witness for C7: with a view requiring metadata `k = v`, a
metadata-free directory under the root is still visible, while a
metadata-free file is hidden. -/
theorem claim_C7_witness :
    (ensureVisiblePath { metadata_filters := some [("k", "v")] }
      { root := .dir [("d", .dir [] {} []), ("f.txt", .file {})] {} [], cwd := [],
        mounts := [] } "/d" = none ↔
      ((match ({ metadata_filters := some [("k", "v")] } :
          VisibilityView).path_prefixes with
        | none => (true : Bool)
        | some ps => prefixOverlap (normalize [] "/d") ps) = true ∧
       ({ metadata_filters := some [("k", "v")] } : VisibilityView).allows {} = true)) ∧
    (ensureVisiblePath { metadata_filters := some [("k", "v")] }
      { root := .dir [("d", .dir [] {} []), ("f.txt", .file {})] {} [], cwd := [],
        mounts := [] } "/f.txt" = none ↔
      ((match ({ metadata_filters := some [("k", "v")] } :
          VisibilityView).path_prefixes with
        | none => (true : Bool)
        | some ps => prefixOverlap (normalize [] "/f.txt") ps) = true ∧
       ({ metadata_filters := some [("k", "v")] } : VisibilityView).allows {} = true ∧
       ([(("k" : String), ("v" : String))].all
         (fun kv => assocLookup kv.1 (FileData.metadata {}) == some kv.2)) = true)) :=
  ⟨(claim_C7_metadata_filters_exempt_directories { metadata_filters := some [("k", "v")] }
      { root := .dir [("d", .dir [] {} []), ("f.txt", .file {})] {} [], cwd := [],
        mounts := [] } "/d" [("k", "v")] rfl (by decide)).1 [] {} [] rfl,
   (claim_C7_metadata_filters_exempt_directories { metadata_filters := some [("k", "v")] }
      { root := .dir [("d", .dir [] {} []), ("f.txt", .file {})] {} [], cwd := [],
        mounts := [] } "/f.txt" [("k", "v")] rfl (by decide)).2 {} rfl⟩

/-- **C4.**  Every file produced by `copy` is a fresh node (provider
cleared, freshly constructed) carrying a clone of the source's policy and
metadata, whose content is the source's `read()`, and whose `version`
equals the version produced by writing its content once — i.e. the version
a fresh `VirtualFile` has after one node-level `write` (nodes.py lines
70-75), `versionAfterOneNodeWrite`, which is 0 regardless of the source's
version. -/
theorem claim_C4_copied_file_fresh_version :
    ∀ (vfs : VFS) (source target : String) (sfd : FileData)
      (dch : List (String × VNode)) (dpol : NodePolicy) (dmd : List (String × String))
      (dname : String),
      getFileAt vfs.root (normalize vfs.cwd source) = some sfd →
      sfd.policy.readable = true →
      lookupNode vfs.root (normalize vfs.cwd target) = none →
      (normalize vfs.cwd target).getLast? = some dname →
      lookupNode vfs.root (normalize vfs.cwd target).dropLast = some (.dir dch dpol dmd) →
      dpol.writable = true → dpol.append_only = false →
      (vfs.copy source target).2 = none ∧
      getFileAt (vfs.copy source target).1.root (normalize vfs.cwd target) =
        some { content := sfd.read, provider := none,
               version := versionAfterOneNodeWrite sfd.read,
               policy := sfd.policy, metadata := sfd.metadata } := by
  intro vfs source target sfd dch dpol dmd dname hsf hread hdnone hlast hdp hw ha
  have hres : resolveNode vfs.root (normalize vfs.cwd source) = .ok (.file sfd) :=
    (resolveNode_ok_iff _ _ _).mpr ((getFileAt_eq_some_iff _ _ _).mp hsf)
  obtain ⟨e, he⟩ := resolveNode_error_of_lookup_none _ _ hdnone
  have hdpres : resolveNode vfs.root (normalize vfs.cwd target).dropLast =
      .ok (.dir dch dpol dmd) := (resolveNode_ok_iff _ _ _).mpr hdp
  have hsplit : (normalize vfs.cwd target).dropLast ++ [dname] = normalize vfs.cwd target :=
    dropLast_append_of_getLast? _ _ hlast
  have hcl : childLookup dname dch = none := by
    have hx : lookupNode vfs.root ((normalize vfs.cwd target).dropLast ++ [dname]) = none := by
      rw [hsplit]; exact hdnone
    rw [lookupNode_append, hdp] at hx
    simpa [lookupNode_dir_single] using hx
  have hcopy : vfs.copy source target =
      ({ vfs with
          root :=
            addChildAt (normalize vfs.cwd target).dropLast dname
              (cloneNode (.file sfd)) vfs.root },
       none) := by
    simp only [VFS.copy, hres, VNode.isDir, Bool.not_false, Bool.and_self, VNode.policyOf,
      hread, he, hdpres, NodePolicy.writeOk, hw, ha, hlast, VFS.copyFinish, Bool.false_and,
      hdp, hcl]
    simp
  refine ⟨by rw [hcopy], ?_⟩
  rw [hcopy]
  show getFileAt (addChildAt (normalize vfs.cwd target).dropLast dname
    (cloneNode (.file sfd)) vfs.root) (normalize vfs.cwd target) = _
  rw [← hsplit]
  unfold addChildAt getFileAt
  rw [List.dropLast_concat]
  rw [lookupNode_updateAt_below _ _ _ _ _ hdp]
  rw [lookupNode_dir_single, childLookup_append, hcl]
  simp [childLookup, cloneNode, versionAfterOneNodeWrite, FileData.writeNode]

/-- Witness for C4: copying `/a.txt` (version 0 here, any version in the
theorem) to the fresh path `/b.txt` yields a version-0 file with the
source's content. -/
theorem claim_C4_witness :
    (freshFileState.copy "/a.txt" "/b.txt").2 = none ∧
    getFileAt (freshFileState.copy "/a.txt" "/b.txt").1.root
      (normalize freshFileState.cwd "/b.txt") =
      some { content := FileData.read {}, provider := none,
             version := versionAfterOneNodeWrite (FileData.read {}),
             policy := FileData.policy {}, metadata := FileData.metadata {} } :=
  claim_C4_copied_file_fresh_version freshFileState "/a.txt" "/b.txt" {}
    [("a.txt", .file {})] {} [] "b.txt" rfl rfl rfl rfl rfl rfl rfl

/-- Witness for C2: the roundtrip conjunct applied to a write that creates
`/a.txt` in an empty filesystem, and the version-count conjunct applied to
three writes on a fresh file. -/
theorem claim_C2_witness :
    (∃ fd', getFileAt ((VFS.write_file {} "/a.txt" "hi").1).root
        (normalize (VFS.cwd {}) "/a.txt") = some fd' ∧
        fd'.read = "hi" ∧
        (fd'.policy.readable = true →
          (VFS.write_file {} "/a.txt" "hi").1.read_file "/a.txt" = .ok "hi")) ∧
    (getFileAt (iterWrite "/a.txt" "hi" 3 freshFileState).root
        (normalize freshFileState.cwd "/a.txt")).map (fun f => f.version) = some 3 :=
  ⟨claim_C2_write_read_roundtrip_and_version_count.1 {} (VFS.write_file {} "/a.txt" "hi").1
      "/a.txt" "hi" rfl,
   claim_C2_write_read_roundtrip_and_version_count.2 freshFileState "/a.txt" "hi" {}
      (by decide) rfl rfl rfl rfl rfl 3⟩

/-- **C5.**  Moving an existing writable file (with a writable parent) to a
non-existing destination (whose parent is a writable directory) distinct
from its current path succeeds, makes `exists(oldPath)` false and
`exists(newPath)` true, and the file's data record — content, provider,
version, policy and metadata — at the new path is exactly the record from
before the move: the node is reparented in place, not recreated. -/
theorem claim_C5_move_reparents_in_place :
    ∀ (vfs : VFS) (source target : String) (fd : FileData)
      (pch dch : List (String × VNode)) (ppol dpol : NodePolicy)
      (pmd dmd : List (String × String)) (srcName dname : String),
      vfs.root.wfB = true →
      (normalize vfs.cwd source).getLast? = some srcName →
      lookupNode vfs.root (normalize vfs.cwd source) = some (.file fd) →
      lookupNode vfs.root (normalize vfs.cwd source).dropLast = some (.dir pch ppol pmd) →
      fd.policy.writable = true → fd.policy.append_only = false →
      ppol.writable = true → ppol.append_only = false →
      lookupNode vfs.root (normalize vfs.cwd target) = none →
      (normalize vfs.cwd target).getLast? = some dname →
      lookupNode vfs.root (normalize vfs.cwd target).dropLast = some (.dir dch dpol dmd) →
      dpol.writable = true → dpol.append_only = false →
      (vfs.move source target).2 = none ∧
      (vfs.move source target).1.exists source = false ∧
      (vfs.move source target).1.exists target = true ∧
      getFileAt (vfs.move source target).1.root (normalize vfs.cwd target) = some fd := by
  intro vfs source target fd pch dch ppol dpol pmd dmd srcName dname
  intro hwf hslast hsf hp hfw hfa hpw hpa hdnone hdlast hdp hdw hda
  have hspne : normalize vfs.cwd source ≠ [] := by
    intro h
    rw [h] at hslast
    cases hslast
  have hssplit : (normalize vfs.cwd source).dropLast ++ [srcName] = normalize vfs.cwd source :=
    dropLast_append_of_getLast? _ _ hslast
  have hdsplit : (normalize vfs.cwd target).dropLast ++ [dname] = normalize vfs.cwd target :=
    dropLast_append_of_getLast? _ _ hdlast
  have hne : normalize vfs.cwd source ≠ normalize vfs.cwd target := by
    intro h
    rw [h, hdnone] at hsf
    cases hsf
  have hres : resolveNode vfs.root (normalize vfs.cwd source) = .ok (.file fd) :=
    (resolveNode_ok_iff _ _ _).mpr hsf
  obtain ⟨e, he⟩ := resolveNode_error_of_lookup_none _ _ hdnone
  have hdpres : resolveNode vfs.root (normalize vfs.cwd target).dropLast =
      .ok (.dir dch dpol dmd) := (resolveNode_ok_iff _ _ _).mpr hdp
  have hcld : childLookup dname dch = none := by
    have hx : lookupNode vfs.root ((normalize vfs.cwd target).dropLast ++ [dname]) = none := by
      rw [hdsplit]; exact hdnone
    rw [lookupNode_append, hdp] at hx
    simpa [lookupNode_dir_single] using hx
  have hsrcgetD : ((normalize vfs.cwd source).getLast?).getD "" = srcName := by
    rw [hslast]; rfl
  have hnoop : ¬ ((normalize vfs.cwd target).dropLast =
      (normalize vfs.cwd source).dropLast ∧ dname = srcName) := by
    rintro ⟨h1, h2⟩
    apply hne
    rw [← hssplit, ← hdsplit, h1, h2]
  have hnself : (normalize vfs.cwd target).dropLast ≠ normalize vfs.cwd source := by
    intro h
    rw [h, hsf] at hdp
    cases hdp
  have hnp1 : ¬ (normalize vfs.cwd source) <+: (normalize vfs.cwd target).dropLast := by
    intro h
    obtain ⟨s, hs⟩ := h
    cases s with
    | nil =>
      rw [List.append_nil] at hs
      exact hnself hs.symm
    | cons x s' =>
      rw [← hs, lookupNode_append, hsf] at hdp
      simp [lookupNode] at hdp
  have hnot : ¬ ((normalize vfs.cwd source).dropLast ++ [srcName]) <+:
      (normalize vfs.cwd target).dropLast := by
    rw [hssplit]; exact hnp1
  obtain ⟨dch', hdch', hpres⟩ :=
    removeChild_preserves_dir vfs.root (normalize vfs.cwd source).dropLast
      (normalize vfs.cwd target).dropLast srcName pch dch ppol dpol pmd dmd hp hdp hnot
  have hcld' : childLookup dname dch' = none := hpres dname hcld
  have hmove1 : vfs.move source target =
      vfs.moveFinish (.file fd) (normalize vfs.cwd source)
        (normalize vfs.cwd target).dropLast dname := by
    simp only [VFS.move, if_neg hspne, hres, hp, VNode.policyOf, NodePolicy.writeOk,
      hfw, hfa, hpw, hpa, he, hdpres, hdw, hda, hdlast]
    simp
  have hmove : vfs.move source target =
      ({ vfs with
          root :=
            addChildAt (normalize vfs.cwd target).dropLast dname (.file fd)
              (removeChildAt (normalize vfs.cwd source).dropLast srcName vfs.root) },
       none) := by
    rw [hmove1]
    simp only [VFS.moveFinish, hsrcgetD, VNode.isDir, Bool.false_and,
      if_neg hnoop, if_neg hnself, hdch', hcld']
    simp
  have hnd : (pch.map Prod.fst).Nodup := wfB_dir_nodup vfs.root _ pch ppol pmd hwf hp
  have hrm : lookupNode (removeChildAt (normalize vfs.cwd source).dropLast srcName vfs.root)
      (normalize vfs.cwd source) = none := by
    have h' := lookup_removeChild_src vfs.root (normalize vfs.cwd source).dropLast srcName
      pch ppol pmd hp hnd
    rw [hssplit] at h'
    exact h'
  have hnp2 : ¬ ((normalize vfs.cwd target).dropLast ++ [dname]) <+:
      normalize vfs.cwd source := by
    rw [hdsplit]
    intro h
    obtain ⟨s, hs⟩ := h
    cases s with
    | nil =>
      rw [List.append_nil] at hs
      exact hne hs.symm
    | cons x s' =>
      rw [← hs, lookupNode_append, hdnone] at hsf
      simp at hsf
  have hfin : lookupNode
      (addChildAt (normalize vfs.cwd target).dropLast dname (.file fd)
        (removeChildAt (normalize vfs.cwd source).dropLast srcName vfs.root))
      (normalize vfs.cwd source) = none :=
    lookup_addChild_none _ _ dname _ dch' dpol dmd _ hdch' hrm hnp2
  have hdest : lookupNode
      (addChildAt (normalize vfs.cwd target).dropLast dname (.file fd)
        (removeChildAt (normalize vfs.cwd source).dropLast srcName vfs.root))
      (normalize vfs.cwd target) = some (.file fd) := by
    have h' := lookup_addChildAt_self
      (removeChildAt (normalize vfs.cwd source).dropLast srcName vfs.root)
      (normalize vfs.cwd target).dropLast dname (.file fd) dch' dpol dmd hdch' hcld'
    rw [hdsplit] at h'
    exact h'
  rw [hmove]
  refine ⟨rfl, ?_, ?_, ?_⟩
  · obtain ⟨e2, he2⟩ := resolveNode_error_of_lookup_none _ _ hfin
    simp [VFS.exists, he2]
  · have hok := (resolveNode_ok_iff _ _ _).mpr hdest
    simp [VFS.exists, hok]
  · simp [getFileAt, hdest]

/-- Witness for C5: moving `/a.txt` to the fresh path `/b.txt` in a
single-file root. -/
theorem claim_C5_witness :
    (freshFileState.move "/a.txt" "/b.txt").2 = none ∧
    (freshFileState.move "/a.txt" "/b.txt").1.exists "/a.txt" = false ∧
    (freshFileState.move "/a.txt" "/b.txt").1.exists "/b.txt" = true ∧
    getFileAt (freshFileState.move "/a.txt" "/b.txt").1.root
      (normalize freshFileState.cwd "/b.txt") = some {} :=
  claim_C5_move_reparents_in_place freshFileState "/a.txt" "/b.txt" {}
    [("a.txt", .file {})] [("a.txt", .file {})] {} {} [] [] "a.txt" "b.txt"
    rfl rfl rfl rfl rfl rfl rfl rfl rfl rfl rfl rfl rfl

/-- **C3, counterexample.**  The claim says that for *both* move and copy,
an existing file destination is atomically replaced rather than rejected.
For `move` this is false: moving `/a.txt` onto the existing file `/b.txt`
raises `InvalidOperation` ("Destination already exists", vfs.py line 602)
and leaves the filesystem — in particular `/b.txt`'s content — unchanged. -/
theorem claim_C3_counterexample :
    (twoFileState.move "/a.txt" "/b.txt").2 = some .invalidOp ∧
    (twoFileState.move "/a.txt" "/b.txt").1 = twoFileState ∧
    twoFileState.read_file "/b.txt" = .ok "B" :=
  ⟨rfl, rfl, rfl⟩

/-- **C3 (amended).**  Overwrite behaviour for a file source:
(1) `move` onto an existing directory re-parents the node inside it under
the source's own name (when that name is free there and the directory is
not already the source's parent); (2) `copy` onto an existing directory
places a fresh clone inside it under the source's own name; (3) `copy`
onto an existing *file* succeeds by atomically replacing it — the old node
is detached first and a clone of the source takes its place; (4) `move`
onto an existing *file*, by contrast, is rejected with `InvalidOperation`
and the filesystem is returned unchanged. -/
theorem claim_C3_overwrite_rules :
    (∀ (vfs : VFS) (source target : String) (fd : FileData)
       (pch dch : List (String × VNode)) (ppol dpol : NodePolicy)
       (pmd dmd : List (String × String)) (srcName : String),
       (normalize vfs.cwd source).getLast? = some srcName →
       lookupNode vfs.root (normalize vfs.cwd source) = some (.file fd) →
       lookupNode vfs.root (normalize vfs.cwd source).dropLast = some (.dir pch ppol pmd) →
       fd.policy.writable = true → fd.policy.append_only = false →
       ppol.writable = true → ppol.append_only = false →
       lookupNode vfs.root (normalize vfs.cwd target) = some (.dir dch dpol dmd) →
       dpol.writable = true → dpol.append_only = false →
       normalize vfs.cwd target ≠ (normalize vfs.cwd source).dropLast →
       childLookup srcName dch = none →
       (vfs.move source target).2 = none ∧
       lookupNode (vfs.move source target).1.root
         (normalize vfs.cwd target ++ [srcName]) = some (.file fd)) ∧
    (∀ (vfs : VFS) (source target : String) (sfd : FileData)
       (dch : List (String × VNode)) (dpol : NodePolicy) (dmd : List (String × String))
       (srcName : String),
       (normalize vfs.cwd source).getLast? = some srcName →
       lookupNode vfs.root (normalize vfs.cwd source) = some (.file sfd) →
       sfd.policy.readable = true →
       lookupNode vfs.root (normalize vfs.cwd target) = some (.dir dch dpol dmd) →
       dpol.writable = true → dpol.append_only = false →
       childLookup srcName dch = none →
       (vfs.copy source target).2 = none ∧
       getFileAt (vfs.copy source target).1.root
         (normalize vfs.cwd target ++ [srcName]) =
         some { content := sfd.read, provider := none,
                version := versionAfterOneNodeWrite sfd.read,
                policy := sfd.policy, metadata := sfd.metadata }) ∧
    (∀ (vfs : VFS) (source target : String) (sfd dfd : FileData)
       (pch : List (String × VNode)) (ppol : NodePolicy) (pmd : List (String × String))
       (dname : String),
       vfs.root.wfB = true →
       lookupNode vfs.root (normalize vfs.cwd source) = some (.file sfd) →
       sfd.policy.readable = true →
       lookupNode vfs.root (normalize vfs.cwd target) = some (.file dfd) →
       (normalize vfs.cwd target).getLast? = some dname →
       lookupNode vfs.root (normalize vfs.cwd target).dropLast = some (.dir pch ppol pmd) →
       ppol.writable = true → ppol.append_only = false →
       dfd.policy.writable = true → dfd.policy.append_only = false →
       (vfs.copy source target).2 = none ∧
       getFileAt (vfs.copy source target).1.root (normalize vfs.cwd target) =
         some { content := sfd.read, provider := none,
                version := versionAfterOneNodeWrite sfd.read,
                policy := sfd.policy, metadata := sfd.metadata }) ∧
    (∀ (vfs : VFS) (source target : String) (node : VNode) (dfd : FileData)
       (pch : List (String × VNode)) (ppol : NodePolicy) (pmd : List (String × String)),
       normalize vfs.cwd source ≠ [] →
       lookupNode vfs.root (normalize vfs.cwd source) = some node →
       lookupNode vfs.root (normalize vfs.cwd source).dropLast = some (.dir pch ppol pmd) →
       node.policyOf.writable = true → node.policyOf.append_only = false →
       ppol.writable = true → ppol.append_only = false →
       lookupNode vfs.root (normalize vfs.cwd target) = some (.file dfd) →
       vfs.move source target = (vfs, some .invalidOp)) := by
  refine ⟨?_, ?_, ?_, ?_⟩
  · -- (1) move onto an existing directory
    intro vfs source target fd pch dch ppol dpol pmd dmd srcName
    intro hslast hsf hp hfw hfa hpw hpa hddir hdw hda hne2 hcl
    have hspne : normalize vfs.cwd source ≠ [] := by
      intro h
      rw [h] at hslast
      cases hslast
    have hssplit : (normalize vfs.cwd source).dropLast ++ [srcName] =
        normalize vfs.cwd source := dropLast_append_of_getLast? _ _ hslast
    have hres : resolveNode vfs.root (normalize vfs.cwd source) = .ok (.file fd) :=
      (resolveNode_ok_iff _ _ _).mpr hsf
    have hdres : resolveNode vfs.root (normalize vfs.cwd target) =
        .ok (.dir dch dpol dmd) := (resolveNode_ok_iff _ _ _).mpr hddir
    have hsrcgetD : ((normalize vfs.cwd source).getLast?).getD "" = srcName := by
      rw [hslast]; rfl
    have hneq : normalize vfs.cwd target ≠ normalize vfs.cwd source := by
      intro h
      rw [h, hsf] at hddir
      cases hddir
    have hnoop : ¬ (normalize vfs.cwd target = (normalize vfs.cwd source).dropLast ∧
        srcName = srcName) := fun h => hne2 h.1
    have hnp1 : ¬ normalize vfs.cwd source <+: normalize vfs.cwd target := by
      intro h
      obtain ⟨s, hs⟩ := h
      cases s with
      | nil =>
        rw [List.append_nil] at hs
        exact hneq hs.symm
      | cons x s' =>
        rw [← hs, lookupNode_append, hsf] at hddir
        simp [lookupNode] at hddir
    have hnot : ¬ ((normalize vfs.cwd source).dropLast ++ [srcName]) <+:
        normalize vfs.cwd target := by
      rw [hssplit]; exact hnp1
    obtain ⟨dch', hdch', hpres⟩ :=
      removeChild_preserves_dir vfs.root (normalize vfs.cwd source).dropLast
        (normalize vfs.cwd target) srcName pch dch ppol dpol pmd dmd hp hddir hnot
    have hcl' : childLookup srcName dch' = none := hpres srcName hcl
    have hmove : vfs.move source target =
        ({ vfs with
            root :=
              addChildAt (normalize vfs.cwd target) srcName (.file fd)
                (removeChildAt (normalize vfs.cwd source).dropLast srcName vfs.root) },
         none) := by
      simp only [VFS.move, if_neg hspne, hres, hp, VNode.policyOf, NodePolicy.writeOk,
        hfw, hfa, hpw, hpa, hdres, hdw, hda, VFS.moveFinish, hsrcgetD, VNode.isDir,
        Bool.false_and, if_neg hnoop, if_neg hneq, hdch', hcl']
      simp [hne2]
    rw [hmove]
    exact ⟨rfl, lookup_addChildAt_self _ _ srcName _ dch' dpol dmd hdch' hcl'⟩
  · -- (2) copy onto an existing directory
    intro vfs source target sfd dch dpol dmd srcName
    intro hslast hsf hread hddir hdw hda hcl
    have hres : resolveNode vfs.root (normalize vfs.cwd source) = .ok (.file sfd) :=
      (resolveNode_ok_iff _ _ _).mpr hsf
    have hdres : resolveNode vfs.root (normalize vfs.cwd target) =
        .ok (.dir dch dpol dmd) := (resolveNode_ok_iff _ _ _).mpr hddir
    have hsrcgetD : ((normalize vfs.cwd source).getLast?).getD "" = srcName := by
      rw [hslast]; rfl
    have hcopy : vfs.copy source target =
        ({ vfs with
            root :=
              addChildAt (normalize vfs.cwd target) srcName (cloneNode (.file sfd))
                vfs.root },
         none) := by
      simp only [VFS.copy, hres, VNode.isDir, VNode.policyOf, hread, hdres,
        NodePolicy.writeOk, hdw, hda, hsrcgetD, VFS.copyFinish, Bool.false_and,
        hddir, hcl]
      simp
    rw [hcopy]
    refine ⟨rfl, ?_⟩
    have hlook := lookup_addChildAt_self vfs.root (normalize vfs.cwd target) srcName
      (cloneNode (.file sfd)) dch dpol dmd hddir hcl
    simp only [getFileAt]
    rw [hlook]
    simp [cloneNode, versionAfterOneNodeWrite, FileData.writeNode]
  · -- (3) copy onto an existing file: atomic replacement
    intro vfs source target sfd dfd pch ppol pmd dname
    intro hwf hsf hread hdf hdlast hp hpw hpa hdw hda
    have hdsplit : (normalize vfs.cwd target).dropLast ++ [dname] =
        normalize vfs.cwd target := dropLast_append_of_getLast? _ _ hdlast
    have hres : resolveNode vfs.root (normalize vfs.cwd source) = .ok (.file sfd) :=
      (resolveNode_ok_iff _ _ _).mpr hsf
    have hdres : resolveNode vfs.root (normalize vfs.cwd target) = .ok (.file dfd) :=
      (resolveNode_ok_iff _ _ _).mpr hdf
    have hdgetD : ((normalize vfs.cwd target).getLast?).getD "" = dname := by
      rw [hdlast]; rfl
    have hnd : (pch.map Prod.fst).Nodup := wfB_dir_nodup vfs.root _ pch ppol pmd hwf hp
    have h1 : lookupNode
        (removeChildAt (normalize vfs.cwd target).dropLast dname vfs.root)
        (normalize vfs.cwd target).dropLast =
        some (.dir (childErase dname pch) ppol pmd) := by
      unfold removeChildAt
      rw [lookupNode_updateAt, hp]
      rfl
    have h2 : childLookup dname (childErase dname pch) = none :=
      childLookup_childErase_self dname pch hnd
    have hcopy : vfs.copy source target =
        ({ vfs with
            root :=
              addChildAt (normalize vfs.cwd target).dropLast dname
                (cloneNode (.file sfd))
                (removeChildAt (normalize vfs.cwd target).dropLast dname vfs.root) },
         none) := by
      simp only [VFS.copy, hres, VNode.isDir, VNode.policyOf, hread, hdres, hp,
        NodePolicy.writeOk, hpw, hpa, hdw, hda, hdgetD, VFS.copyFinish,
        Bool.false_and, h1, h2]
      simp
    rw [hcopy]
    refine ⟨rfl, ?_⟩
    have hlook : lookupNode
        (addChildAt (normalize vfs.cwd target).dropLast dname (cloneNode (.file sfd))
          (removeChildAt (normalize vfs.cwd target).dropLast dname vfs.root))
        (normalize vfs.cwd target) = some (cloneNode (.file sfd)) := by
      have h' := lookup_addChildAt_self
        (removeChildAt (normalize vfs.cwd target).dropLast dname vfs.root)
        (normalize vfs.cwd target).dropLast dname (cloneNode (.file sfd))
        (childErase dname pch) ppol pmd h1 h2
      rw [hdsplit] at h'
      exact h'
    simp only [getFileAt]
    rw [hlook]
    simp [cloneNode, versionAfterOneNodeWrite, FileData.writeNode]
  · -- (4) move onto an existing file: rejected, state unchanged
    intro vfs source target node dfd pch ppol pmd
    intro hspne hsf hp hfw hfa hpw hpa hdf
    have hres : resolveNode vfs.root (normalize vfs.cwd source) = .ok node :=
      (resolveNode_ok_iff _ _ _).mpr hsf
    have hdres : resolveNode vfs.root (normalize vfs.cwd target) = .ok (.file dfd) :=
      (resolveNode_ok_iff _ _ _).mpr hdf
    simp only [VFS.move, if_neg hspne, hres, hp, NodePolicy.writeOk,
      hfw, hfa, hpw, hpa, hdres]
    simp

/-- Witness for the amended C3, one concrete instance per conjunct: moving
and copying `/a.txt` into the directory `/d`, copying `/a.txt` over the
existing file `/b.txt`, and the rejected move of `/a.txt` onto `/b.txt`. -/
theorem claim_C3_witness :
    ((fileDirState.move "/a.txt" "/d").2 = none ∧
      lookupNode (fileDirState.move "/a.txt" "/d").1.root
        (normalize fileDirState.cwd "/d" ++ ["a.txt"]) =
        some (.file { content := "A" })) ∧
    ((fileDirState.copy "/a.txt" "/d").2 = none ∧
      getFileAt (fileDirState.copy "/a.txt" "/d").1.root
        (normalize fileDirState.cwd "/d" ++ ["a.txt"]) =
        some { content := "A", provider := none, version := 0,
               policy := {}, metadata := [] }) ∧
    ((twoFileState.copy "/a.txt" "/b.txt").2 = none ∧
      getFileAt (twoFileState.copy "/a.txt" "/b.txt").1.root
        (normalize twoFileState.cwd "/b.txt") =
        some { content := "A", provider := none, version := 0,
               policy := {}, metadata := [] }) ∧
    twoFileState.move "/a.txt" "/b.txt" = (twoFileState, some .invalidOp) :=
  ⟨claim_C3_overwrite_rules.1 fileDirState "/a.txt" "/d" { content := "A" }
      [("a.txt", .file { content := "A" }), ("d", defaultDir)] [] {} {} [] [] "a.txt"
      rfl rfl rfl rfl rfl rfl rfl rfl rfl rfl (by decide) rfl,
   claim_C3_overwrite_rules.2.1 fileDirState "/a.txt" "/d" { content := "A" }
      [] {} [] "a.txt" rfl rfl rfl rfl rfl rfl rfl,
   claim_C3_overwrite_rules.2.2.1 twoFileState "/a.txt" "/b.txt" { content := "A" }
      { content := "B" }
      [("a.txt", .file { content := "A" }), ("b.txt", .file { content := "B" })]
      {} [] "b.txt" rfl rfl rfl rfl rfl rfl rfl rfl rfl rfl,
   claim_C3_overwrite_rules.2.2.2 twoFileState "/a.txt" "/b.txt"
      (.file { content := "A" }) { content := "B" }
      [("a.txt", .file { content := "A" }), ("b.txt", .file { content := "B" })]
      {} [] (by decide) rfl rfl rfl rfl rfl rfl rfl⟩

/-- **C8.**  Pipeline and multi-line short-circuiting (with no output
limit installed, which would rewrite results): (1) a segment whose command
exits non-zero ends the pipeline at once — whatever segments remain — and
the pipeline's result carries that segment's exit code (with its stdout
and the accumulated stderr); (2) consequently the segments after a failing
segment are never executed: extending the pipeline past it does not change
the result; (3) `exec` runs the non-blank lines as independent pipelines
in order, returning the first line result with a non-zero exit code
without touching the remaining lines; (4) a zero-exit line hands its
result and state to the loop over the remaining lines. -/
theorem claim_C8_pipeline_short_circuit :
    (∀ (σ : Type) (cfg : ShellCfg σ) (st : ShellState σ) (stdoutPipe : String)
       (chunks : List String) (spec : CommandSpec) (rest : List CommandSpec)
       (nm : String) (inner1 inner2 : σ) (stdinData : String) (r : CommandResult),
       cfg.max_output_bytes = none →
       spec.name = some nm →
       segmentStdin cfg st.inner (segmentEnv cfg st.env spec) spec stdoutPipe =
         (inner1, .ok stdinData) →
       cfg.runCommand inner1 (cfg.expandVars (segmentEnv cfg st.env spec) nm)
         (cfg.expandArgs st.inner (segmentEnv cfg st.env spec)
           (cfg.expandVars (segmentEnv cfg st.env spec) nm) spec.args) stdinData
         (segmentEnv cfg st.env spec) = (inner2, r) →
       r.exit_code ≠ 0 →
       execSegments cfg st stdoutPipe chunks (spec :: rest) =
         ({ st with inner := inner2 },
          .ok { stdout := r.stdout, stderr := joinChunks (chunks ++ [r.stderr]),
                exit_code := r.exit_code })) ∧
    (∀ (σ : Type) (cfg : ShellCfg σ) (pre : List CommandSpec) (spec : CommandSpec)
       (rest : List CommandSpec) (st : ShellState σ) (stdoutPipe : String)
       (chunks : List String) (st' : ShellState σ) (r : CommandResult),
       cfg.max_output_bytes = none →
       execSegments cfg st stdoutPipe chunks (pre ++ [spec]) = (st', .ok r) →
       r.exit_code ≠ 0 →
       execSegments cfg st stdoutPipe chunks (pre ++ spec :: rest) = (st', .ok r)) ∧
    (∀ (σ : Type) (cfg : ShellCfg σ) (st : ShellState σ) (command line : String)
       (rest : List String) (st1 : ShellState σ) (r : CommandResult),
       nonBlankLines command = line :: rest →
       execPipeline cfg st line = (st1, .ok r) →
       r.exit_code ≠ 0 →
       cfg.exec st command = (st1, .ok r)) ∧
    (∀ (σ : Type) (cfg : ShellCfg σ) (st : ShellState σ) (command line : String)
       (rest : List String) (st1 : ShellState σ) (r : CommandResult),
       nonBlankLines command = line :: rest →
       execPipeline cfg st line = (st1, .ok r) →
       r.exit_code = 0 →
       cfg.exec st command = execLines cfg st1 r rest) := by
  refine ⟨?_, ?_, ?_, ?_⟩
  · intro σ cfg st stdoutPipe chunks spec rest nm inner1 inner2 stdinData r
    intro hmax hname hstdin hrun hne
    simp only [execSegments, hname, hstdin, hrun, hmax, enforceOutputLimit]
    rw [if_pos hne]
  · intro σ cfg pre spec rest st stdoutPipe chunks st' r hmax h hr
    exact execSegments_append_fail cfg hmax pre spec rest st stdoutPipe chunks st' r h hr
  · intro σ cfg st command line rest st1 r hlines hpipe hr
    simp only [ShellCfg.exec, hlines, execLines, hpipe]
    rw [if_pos hr]
  · intro σ cfg st command line rest st1 r hlines hpipe hr0
    simp only [ShellCfg.exec, hlines, execLines, hpipe]
    rw [if_neg (fun hh => hh hr0)]

/-- Witness for C8, one instance per conjunct over the trivial-state
collaborators: the failing head segment `fail | echo`, the failing middle
segment `ok | fail | echo`, the two-line scripts `fail`-then-`echo` and
`ok`-then-`fail`. -/
theorem claim_C8_witness :
    (execSegments unitShellCfg { env := [], inner := () } "" []
        ({ name := some "fail" } :: [{ name := some "echo" }]) =
      ({ env := [], inner := () },
       .ok { stdout := "", stderr := "boom", exit_code := 1 })) ∧
    (execSegments unitShellCfg { env := [], inner := () } "" []
        ([{ name := some "ok" }] ++ { name := some "fail" } :: [{ name := some "echo" }]) =
      ({ env := [], inner := () },
       .ok { stdout := "", stderr := "boom", exit_code := 1 })) ∧
    (unitShellCfg.exec { env := [], inner := () } "fail\necho" =
      ({ env := [], inner := () },
       .ok { stdout := "", stderr := "boom", exit_code := 1 })) ∧
    (unitShellCfg.exec { env := [], inner := () } "ok\nfail" =
      execLines unitShellCfg { env := [], inner := () }
        { stdout := "ok", stderr := "", exit_code := 0 } ["fail"]) :=
  ⟨claim_C8_pipeline_short_circuit.1 Unit unitShellCfg { env := [], inner := () } "" []
      { name := some "fail" } [{ name := some "echo" }] "fail" () () ""
      { stdout := "", stderr := "boom", exit_code := 1 } rfl rfl rfl rfl (by decide),
   claim_C8_pipeline_short_circuit.2.1 Unit unitShellCfg [{ name := some "ok" }]
      { name := some "fail" } [{ name := some "echo" }] { env := [], inner := () } "" []
      { env := [], inner := () } { stdout := "", stderr := "boom", exit_code := 1 }
      rfl rfl (by decide),
   claim_C8_pipeline_short_circuit.2.2.1 Unit unitShellCfg { env := [], inner := () }
      "fail\necho" "fail" ["echo"] { env := [], inner := () }
      { stdout := "", stderr := "boom", exit_code := 1 } rfl rfl (by decide),
   claim_C8_pipeline_short_circuit.2.2.2 Unit unitShellCfg { env := [], inner := () }
      "ok\nfail" "ok" ["fail"] { env := [], inner := () }
      { stdout := "ok", stderr := "", exit_code := 0 } rfl rfl rfl⟩

end SandFS
